import Mathlib

/-!
Verification of the LTTng UST filter bytecode validator
(src/liblttng-ust/lttng-filter-validator.c).

The validator walks an untrusted bytecode buffer once, checking for each
instruction that its encoding lies within the buffer, that operand register
types are admissible for the opcode, and that logical branches only jump
forward.  Branch targets are recorded in a merge-point table and revalidated
when the walk reaches them.

The buffer is embedded as a `List Nat` of bytes; program counters are byte
offsets from the start of the buffer.  C `int` return values are embedded as
`Int` (0 for success, -EINVAL for errors, 1 for the driver's
"going to next instruction" sentinel).
-/

set_option maxHeartbeats 1600000

/-- Modelled from the spec: the closed set of semantic register types
(§3 of the spec; the defining header `lttng-filter.h` is not in src).
`UNKNOWN` is the initial type of every abstract register. -/
inductive RegType where
  | S64
  | DOUBLE
  | STRING
  | UNKNOWN
deriving DecidableEq, Repr

/-- Abstract register: semantic type tag plus the literal flag
(struct vreg in the source; the C `int literal` is embedded as `Nat`). -/
structure vreg where
  type : RegType
  literal : Nat
deriving DecidableEq, Repr

/-- Register index of R0 (enum value REG_R0). -/
def REG_R0 : Nat := 0

/-- Register index of R1 (enum value REG_R1). -/
def REG_R1 : Nat := 1

/-- Out-of-range register sentinel (enum value REG_ERROR); the validator
rejects any instruction whose reg field is ≥ this value. -/
def REG_ERROR : Nat := 2

/-- The abstract register file `struct vreg reg[NR_REG]` with NR_REG = 2. -/
structure Regs where
  r0 : vreg
  r1 : vreg
deriving DecidableEq, Repr

/-- Read `reg[i]`.  Callers in the source only read indices that passed the
`insn->reg >= REG_ERROR` check, so indices ≥ 2 are unreachable; they are
completed to `r1` to make the function total. -/
def getReg (r : Regs) (i : Nat) : vreg :=
  if i = 0 then r.r0 else r.r1

/-- Write `reg[i]`.  Out-of-range writes cannot occur in the source because
every write is guarded by the `insn->reg >= REG_ERROR` check in
`validate_instruction_context`; they are completed to a no-op. -/
def setReg (r : Regs) (i : Nat) (v : vreg) : Regs :=
  if i = 0 then { r with r0 := v }
  else if i = 1 then { r with r1 := v }
  else r

/-- Initial register file set up by `lttng_filter_validate_bytecode`:
every register starts as (REG_TYPE_UNKNOWN, literal 0). -/
def initRegs : Regs :=
  { r0 := { type := RegType.UNKNOWN, literal := 0 },
    r1 := { type := RegType.UNKNOWN, literal := 0 } }

/-- The errno value EINVAL; the validator reports every validation failure
as -EINVAL. -/
def EINVAL : Int := 22

/-- Modelled from the spec: the closed set of filter opcodes (§3/§6 of the
spec; the defining header `lttng-filter.h` is not in src). -/
inductive FilterOp where
  | UNKNOWN
  | RETURN
  | MUL
  | DIV
  | MOD
  | PLUS
  | MINUS
  | RSHIFT
  | LSHIFT
  | BIN_AND
  | BIN_OR
  | BIN_XOR
  | EQ
  | NE
  | GT
  | LT
  | GE
  | LE
  | EQ_STRING
  | NE_STRING
  | GT_STRING
  | LT_STRING
  | GE_STRING
  | LE_STRING
  | EQ_S64
  | NE_S64
  | GT_S64
  | LT_S64
  | GE_S64
  | LE_S64
  | EQ_DOUBLE
  | NE_DOUBLE
  | GT_DOUBLE
  | LT_DOUBLE
  | GE_DOUBLE
  | LE_DOUBLE
  | UNARY_PLUS
  | UNARY_MINUS
  | UNARY_NOT
  | UNARY_PLUS_S64
  | UNARY_MINUS_S64
  | UNARY_NOT_S64
  | UNARY_PLUS_DOUBLE
  | UNARY_MINUS_DOUBLE
  | UNARY_NOT_DOUBLE
  | AND
  | OR
  | LOAD_FIELD_REF
  | LOAD_STRING
  | LOAD_S64
  | LOAD_DOUBLE
  | CAST_TO_S64
  | CAST_DOUBLE_TO_S64
  | CAST_NOP
  | LOAD_FIELD_REF_STRING
  | LOAD_FIELD_REF_SEQUENCE
  | LOAD_FIELD_REF_S64
  | LOAD_FIELD_REF_DOUBLE
deriving DecidableEq, Repr

/-- Modelled from the spec: decode of the one-byte opcode header
(`*(filter_opcode_t *) pc`); opcode numbering follows the enum order of the
instruction classes in §3, with 0 = FILTER_OP_UNKNOWN.  Any byte outside the
closed set decodes to UNKNOWN. -/
def opcodeOfByte (b : Nat) : FilterOp :=
  match b with
  | 1 => FilterOp.RETURN
  | 2 => FilterOp.MUL
  | 3 => FilterOp.DIV
  | 4 => FilterOp.MOD
  | 5 => FilterOp.PLUS
  | 6 => FilterOp.MINUS
  | 7 => FilterOp.RSHIFT
  | 8 => FilterOp.LSHIFT
  | 9 => FilterOp.BIN_AND
  | 10 => FilterOp.BIN_OR
  | 11 => FilterOp.BIN_XOR
  | 12 => FilterOp.EQ
  | 13 => FilterOp.NE
  | 14 => FilterOp.GT
  | 15 => FilterOp.LT
  | 16 => FilterOp.GE
  | 17 => FilterOp.LE
  | 18 => FilterOp.EQ_STRING
  | 19 => FilterOp.NE_STRING
  | 20 => FilterOp.GT_STRING
  | 21 => FilterOp.LT_STRING
  | 22 => FilterOp.GE_STRING
  | 23 => FilterOp.LE_STRING
  | 24 => FilterOp.EQ_S64
  | 25 => FilterOp.NE_S64
  | 26 => FilterOp.GT_S64
  | 27 => FilterOp.LT_S64
  | 28 => FilterOp.GE_S64
  | 29 => FilterOp.LE_S64
  | 30 => FilterOp.EQ_DOUBLE
  | 31 => FilterOp.NE_DOUBLE
  | 32 => FilterOp.GT_DOUBLE
  | 33 => FilterOp.LT_DOUBLE
  | 34 => FilterOp.GE_DOUBLE
  | 35 => FilterOp.LE_DOUBLE
  | 36 => FilterOp.UNARY_PLUS
  | 37 => FilterOp.UNARY_MINUS
  | 38 => FilterOp.UNARY_NOT
  | 39 => FilterOp.UNARY_PLUS_S64
  | 40 => FilterOp.UNARY_MINUS_S64
  | 41 => FilterOp.UNARY_NOT_S64
  | 42 => FilterOp.UNARY_PLUS_DOUBLE
  | 43 => FilterOp.UNARY_MINUS_DOUBLE
  | 44 => FilterOp.UNARY_NOT_DOUBLE
  | 45 => FilterOp.AND
  | 46 => FilterOp.OR
  | 47 => FilterOp.LOAD_FIELD_REF
  | 48 => FilterOp.LOAD_STRING
  | 49 => FilterOp.LOAD_S64
  | 50 => FilterOp.LOAD_DOUBLE
  | 51 => FilterOp.CAST_TO_S64
  | 52 => FilterOp.CAST_DOUBLE_TO_S64
  | 53 => FilterOp.CAST_NOP
  | 54 => FilterOp.LOAD_FIELD_REF_STRING
  | 55 => FilterOp.LOAD_FIELD_REF_SEQUENCE
  | 56 => FilterOp.LOAD_FIELD_REF_S64
  | 57 => FilterOp.LOAD_FIELD_REF_DOUBLE
  | _ => FilterOp.UNKNOWN

/-- Modelled from the spec: sizeof(struct return_op) — opcode header only
(wire encoding of §6; `lttng-filter.h` is not in src). -/
def return_op_size : Nat := 1

/-- Modelled from the spec: sizeof(struct binary_op) — opcode header only. -/
def binary_op_size : Nat := 1

/-- Modelled from the spec: sizeof(struct unary_op) — opcode header plus the
one-byte register index. -/
def unary_op_size : Nat := 2

/-- Modelled from the spec: sizeof(struct logical_op) — opcode header plus
the 16-bit unsigned skip_offset. -/
def logical_op_size : Nat := 3

/-- Modelled from the spec: sizeof(struct load_op) — opcode header plus the
one-byte register index (the inline payload follows). -/
def load_op_size : Nat := 2

/-- Modelled from the spec: sizeof(struct cast_op) — opcode header plus the
one-byte register index. -/
def cast_op_size : Nat := 2

/-- Modelled from the spec: sizeof(struct field_ref) — the 16-bit offset into
the event payload. -/
def field_ref_size : Nat := 2

/-- Modelled from the spec: sizeof(struct literal_numeric) — an inline 64-bit
integer. -/
def literal_numeric_size : Nat := 8

/-- Modelled from the spec: sizeof(struct literal_double) — an inline 64-bit
float. -/
def literal_double_size : Nat := 8

/-- Read the byte at offset `i`; offsets past the end read 0 (the source only
reads offsets that passed the bounds checks). -/
def byteAt (buf : List Nat) (i : Nat) : Nat :=
  buf.getD i 0

/-- Modelled from the spec: decode of a 16-bit little-endian field at offset
`i` (used for the `skip_offset` of logical instructions). -/
def u16At (buf : List Nat) (i : Nat) : Nat :=
  byteAt buf i + 256 * byteAt buf (i + 1)

/-- Embedding of `strnlen(buf + i, m)`: number of bytes before the first NUL
among the `m` bytes starting at offset `i`, or `m` if no NUL occurs there. -/
def strnlen_from (buf : List Nat) (i : Nat) : Nat → Nat
  | 0 => 0
  | m + 1 => if byteAt buf i = 0 then 0 else strnlen_from buf (i + 1) m + 1

/-- Embedding of `strlen(buf + i)`: scan to the first NUL.  The source only
calls this after `bytecode_validate_overflow` established that a NUL occurs
before the end of the buffer, so scanning is capped at the buffer end. -/
def strlen_from (buf : List Nat) (i : Nat) : Nat :=
  strnlen_from buf i (buf.length - i)

/-- Merge point table node (struct lfht_mp_node): the register context
captured at the branch site, keyed by the absolute target offset. -/
structure MergeNode where
  target_pc : Nat
  reg : Regs
deriving DecidableEq, Repr

/-- Embedding of `merge_point_add`: insert a snapshot of the register file
keyed by `target_pc`.  (The source's hash table allocation may fail with
-ENOMEM; allocation is not modelled and always succeeds here.) -/
def merge_point_add (mps : List MergeNode) (target_pc : Nat) (reg : Regs) :
    List MergeNode :=
  mps ++ [{ target_pc := target_pc, reg := reg }]

/-- Embedding of `bin_op_compare_check`: type admissibility of a generic
comparison over (R0, R1).  Both strings, or both numeric (S64/DOUBLE), is
accepted; a string mixed with a numeric takes the mismatch error path, and
an UNKNOWN operand takes the unknown-type error path; both paths return
-EINVAL. -/
def bin_op_compare_check (reg : Regs) : Int :=
  match (getReg reg REG_R0).type with
  | RegType.STRING =>
    match (getReg reg REG_R1).type with
    | RegType.STRING => 0
    | RegType.S64 => -EINVAL
    | RegType.DOUBLE => -EINVAL
    | RegType.UNKNOWN => -EINVAL
  | RegType.S64 =>
    match (getReg reg REG_R1).type with
    | RegType.STRING => -EINVAL
    | RegType.S64 => 0
    | RegType.DOUBLE => 0
    | RegType.UNKNOWN => -EINVAL
  | RegType.DOUBLE =>
    match (getReg reg REG_R1).type with
    | RegType.STRING => -EINVAL
    | RegType.S64 => 0
    | RegType.DOUBLE => 0
    | RegType.UNKNOWN => -EINVAL
  | RegType.UNKNOWN => -EINVAL

/-- Embedding of `bytecode_validate_overflow`: reject any instruction whose
declared encoding runs past the end of the buffer; for LOAD_STRING the check
scans for the NUL terminator within the remaining bytes.  Unknown and
reserved (unsupported) opcodes are rejected here as well. -/
def bytecode_validate_overflow (buf : List Nat) (pc : Nat) : Int :=
  match opcodeOfByte (byteAt buf pc) with
  | FilterOp.UNKNOWN => -EINVAL
  | FilterOp.RETURN =>
    if pc + return_op_size > buf.length then -EINVAL else 0
  | FilterOp.MUL | FilterOp.DIV | FilterOp.MOD | FilterOp.PLUS
  | FilterOp.MINUS | FilterOp.RSHIFT | FilterOp.LSHIFT | FilterOp.BIN_AND
  | FilterOp.BIN_OR | FilterOp.BIN_XOR => -EINVAL
  | FilterOp.EQ | FilterOp.NE | FilterOp.GT | FilterOp.LT
  | FilterOp.GE | FilterOp.LE
  | FilterOp.EQ_STRING | FilterOp.NE_STRING | FilterOp.GT_STRING
  | FilterOp.LT_STRING | FilterOp.GE_STRING | FilterOp.LE_STRING
  | FilterOp.EQ_S64 | FilterOp.NE_S64 | FilterOp.GT_S64
  | FilterOp.LT_S64 | FilterOp.GE_S64 | FilterOp.LE_S64
  | FilterOp.EQ_DOUBLE | FilterOp.NE_DOUBLE | FilterOp.GT_DOUBLE
  | FilterOp.LT_DOUBLE | FilterOp.GE_DOUBLE | FilterOp.LE_DOUBLE =>
    if pc + binary_op_size > buf.length then -EINVAL else 0
  | FilterOp.UNARY_PLUS | FilterOp.UNARY_MINUS | FilterOp.UNARY_NOT
  | FilterOp.UNARY_PLUS_S64 | FilterOp.UNARY_MINUS_S64
  | FilterOp.UNARY_NOT_S64 | FilterOp.UNARY_PLUS_DOUBLE
  | FilterOp.UNARY_MINUS_DOUBLE | FilterOp.UNARY_NOT_DOUBLE =>
    if pc + unary_op_size > buf.length then -EINVAL else 0
  | FilterOp.AND | FilterOp.OR =>
    if pc + logical_op_size > buf.length then -EINVAL else 0
  | FilterOp.LOAD_FIELD_REF => -EINVAL
  | FilterOp.LOAD_FIELD_REF_STRING | FilterOp.LOAD_FIELD_REF_SEQUENCE
  | FilterOp.LOAD_FIELD_REF_S64 | FilterOp.LOAD_FIELD_REF_DOUBLE =>
    if pc + load_op_size + field_ref_size > buf.length then -EINVAL else 0
  | FilterOp.LOAD_STRING =>
    if pc + load_op_size > buf.length then -EINVAL
    else
      let maxlen := buf.length - pc - load_op_size
      let str_len := strnlen_from buf (pc + load_op_size) maxlen
      if str_len ≥ maxlen then -EINVAL else 0
  | FilterOp.LOAD_S64 =>
    if pc + load_op_size + literal_numeric_size > buf.length then -EINVAL
    else 0
  | FilterOp.LOAD_DOUBLE =>
    if pc + load_op_size + literal_double_size > buf.length then -EINVAL
    else 0
  | FilterOp.CAST_TO_S64 | FilterOp.CAST_DOUBLE_TO_S64 | FilterOp.CAST_NOP =>
    if pc + cast_op_size > buf.length then -EINVAL else 0

/-- Embedding of `validate_instruction_context`: per-opcode admissibility of
the abstract register file `reg` for the instruction at offset `pc`
(`start_pc` is offset 0).  Returns 0 on success, -EINVAL on any failure. -/
def validate_instruction_context (buf : List Nat) (reg : Regs) (pc : Nat) :
    Int :=
  match opcodeOfByte (byteAt buf pc) with
  | FilterOp.UNKNOWN => -EINVAL
  | FilterOp.RETURN => 0
  | FilterOp.MUL | FilterOp.DIV | FilterOp.MOD | FilterOp.PLUS
  | FilterOp.MINUS | FilterOp.RSHIFT | FilterOp.LSHIFT | FilterOp.BIN_AND
  | FilterOp.BIN_OR | FilterOp.BIN_XOR => -EINVAL
  | FilterOp.EQ | FilterOp.NE | FilterOp.GT | FilterOp.LT
  | FilterOp.GE | FilterOp.LE => bin_op_compare_check reg
  | FilterOp.EQ_STRING | FilterOp.NE_STRING | FilterOp.GT_STRING
  | FilterOp.LT_STRING | FilterOp.GE_STRING | FilterOp.LE_STRING =>
    if (getReg reg REG_R0).type ≠ RegType.STRING
        ∨ (getReg reg REG_R1).type ≠ RegType.STRING then -EINVAL
    else 0
  | FilterOp.EQ_S64 | FilterOp.NE_S64 | FilterOp.GT_S64
  | FilterOp.LT_S64 | FilterOp.GE_S64 | FilterOp.LE_S64 =>
    if (getReg reg REG_R0).type ≠ RegType.S64
        ∨ (getReg reg REG_R1).type ≠ RegType.S64 then -EINVAL
    else 0
  | FilterOp.EQ_DOUBLE | FilterOp.NE_DOUBLE | FilterOp.GT_DOUBLE
  | FilterOp.LT_DOUBLE | FilterOp.GE_DOUBLE | FilterOp.LE_DOUBLE =>
    if ((getReg reg REG_R0).type ≠ RegType.DOUBLE
          ∧ (getReg reg REG_R0).type ≠ RegType.S64)
        ∨ ((getReg reg REG_R1).type ≠ RegType.DOUBLE
          ∧ (getReg reg REG_R1).type ≠ RegType.S64) then -EINVAL
    else if (getReg reg REG_R0).type ≠ RegType.DOUBLE
        ∧ (getReg reg REG_R1).type ≠ RegType.DOUBLE then -EINVAL
    else 0
  | FilterOp.UNARY_PLUS | FilterOp.UNARY_MINUS | FilterOp.UNARY_NOT =>
    let r := byteAt buf (pc + 1)
    if r ≥ REG_ERROR then -EINVAL
    else
      match (getReg reg r).type with
      | RegType.UNKNOWN => -EINVAL
      | RegType.STRING => -EINVAL
      | RegType.S64 => 0
      | RegType.DOUBLE => 0
  | FilterOp.UNARY_PLUS_S64 | FilterOp.UNARY_MINUS_S64
  | FilterOp.UNARY_NOT_S64 =>
    let r := byteAt buf (pc + 1)
    if r ≥ REG_ERROR then -EINVAL
    else if (getReg reg r).type ≠ RegType.S64 then -EINVAL
    else 0
  | FilterOp.UNARY_PLUS_DOUBLE | FilterOp.UNARY_MINUS_DOUBLE
  | FilterOp.UNARY_NOT_DOUBLE =>
    let r := byteAt buf (pc + 1)
    if r ≥ REG_ERROR then -EINVAL
    else if (getReg reg r).type ≠ RegType.DOUBLE then -EINVAL
    else 0
  | FilterOp.AND | FilterOp.OR =>
    if (getReg reg REG_R0).type ≠ RegType.S64 then -EINVAL
    else if u16At buf (pc + 1) ≤ pc then -EINVAL
    else 0
  | FilterOp.LOAD_FIELD_REF => -EINVAL
  | FilterOp.LOAD_FIELD_REF_STRING | FilterOp.LOAD_FIELD_REF_SEQUENCE
  | FilterOp.LOAD_FIELD_REF_S64 | FilterOp.LOAD_FIELD_REF_DOUBLE =>
    if byteAt buf (pc + 1) ≥ REG_ERROR then -EINVAL else 0
  | FilterOp.LOAD_STRING =>
    if byteAt buf (pc + 1) ≥ REG_ERROR then -EINVAL else 0
  | FilterOp.LOAD_S64 =>
    if byteAt buf (pc + 1) ≥ REG_ERROR then -EINVAL else 0
  | FilterOp.LOAD_DOUBLE =>
    if byteAt buf (pc + 1) ≥ REG_ERROR then -EINVAL else 0
  | FilterOp.CAST_TO_S64 | FilterOp.CAST_DOUBLE_TO_S64 =>
    let r := byteAt buf (pc + 1)
    if r ≥ REG_ERROR then -EINVAL
    else
      match (getReg reg r).type with
      | RegType.UNKNOWN => -EINVAL
      | RegType.STRING => -EINVAL
      | RegType.S64 =>
        if opcodeOfByte (byteAt buf pc) = FilterOp.CAST_DOUBLE_TO_S64
        then -EINVAL else 0
      | RegType.DOUBLE => 0
  | FilterOp.CAST_NOP => 0

/-- Embedding of the merge-point loop of `validate_instruction_all_contexts`:
validate the instruction at `pc` once per stored snapshot keyed at `pc`,
removing each snapshot that validates; stop at the first failure.  Returns
the error value together with the remaining table. -/
def validate_merge_points (buf : List Nat) (pc : Nat) :
    List MergeNode → Int × List MergeNode
  | [] => (0, [])
  | n :: rest =>
    if n.target_pc = pc then
      let r := validate_instruction_context buf n.reg pc
      if r ≠ 0 then (r, n :: rest)
      else validate_merge_points buf pc rest
    else
      let p := validate_merge_points buf pc rest
      (p.1, n :: p.2)

/-- Embedding of `validate_instruction_all_contexts`: validate the context
flowing from the previous instruction, then every merge-point snapshot
targeting `pc` (each validated snapshot is removed from the table). -/
def validate_instruction_all_contexts (buf : List Nat) (mps : List MergeNode)
    (reg : Regs) (pc : Nat) : Int × List MergeNode :=
  let r := validate_instruction_context buf reg pc
  if r ≠ 0 then (r, mps)
  else validate_merge_points buf pc mps

/-- Result of `exec_insn`: ret > 0 means go to the next instruction (with the
updated register file, merge table, and next pc), ret = 0 means stop with
success (RETURN), ret < 0 carries the error value. -/
inductive ExecResult where
  | next (reg : Regs) (mps : List MergeNode) (next_pc : Nat)
  | stop
  | err (e : Int)
deriving DecidableEq, Repr

/-- Embedding of `exec_insn`: the transfer function.  Updates the abstract
register file, computes the successor pc, and records a merge point for
logical branches. -/
def exec_insn (buf : List Nat) (reg : Regs) (mps : List MergeNode) (pc : Nat) :
    ExecResult :=
  match opcodeOfByte (byteAt buf pc) with
  | FilterOp.UNKNOWN => ExecResult.err (-EINVAL)
  | FilterOp.RETURN => ExecResult.stop
  | FilterOp.MUL | FilterOp.DIV | FilterOp.MOD | FilterOp.PLUS
  | FilterOp.MINUS | FilterOp.RSHIFT | FilterOp.LSHIFT | FilterOp.BIN_AND
  | FilterOp.BIN_OR | FilterOp.BIN_XOR => ExecResult.err (-EINVAL)
  | FilterOp.EQ | FilterOp.NE | FilterOp.GT | FilterOp.LT
  | FilterOp.GE | FilterOp.LE
  | FilterOp.EQ_STRING | FilterOp.NE_STRING | FilterOp.GT_STRING
  | FilterOp.LT_STRING | FilterOp.GE_STRING | FilterOp.LE_STRING
  | FilterOp.EQ_S64 | FilterOp.NE_S64 | FilterOp.GT_S64
  | FilterOp.LT_S64 | FilterOp.GE_S64 | FilterOp.LE_S64 =>
    ExecResult.next
      (setReg reg REG_R0
        { type := RegType.S64, literal := (getReg reg REG_R0).literal })
      mps (pc + binary_op_size)
  | FilterOp.EQ_DOUBLE | FilterOp.NE_DOUBLE | FilterOp.GT_DOUBLE
  | FilterOp.LT_DOUBLE | FilterOp.GE_DOUBLE | FilterOp.LE_DOUBLE =>
    ExecResult.next
      (setReg reg REG_R0
        { type := RegType.DOUBLE, literal := (getReg reg REG_R0).literal })
      mps (pc + binary_op_size)
  | FilterOp.UNARY_PLUS | FilterOp.UNARY_MINUS | FilterOp.UNARY_NOT
  | FilterOp.UNARY_PLUS_S64 | FilterOp.UNARY_MINUS_S64
  | FilterOp.UNARY_NOT_S64 =>
    ExecResult.next
      (setReg reg REG_R0
        { type := RegType.S64, literal := (getReg reg REG_R0).literal })
      mps (pc + unary_op_size)
  | FilterOp.UNARY_PLUS_DOUBLE | FilterOp.UNARY_MINUS_DOUBLE
  | FilterOp.UNARY_NOT_DOUBLE =>
    ExecResult.next
      (setReg reg REG_R0
        { type := RegType.DOUBLE, literal := (getReg reg REG_R0).literal })
      mps (pc + unary_op_size)
  | FilterOp.AND | FilterOp.OR =>
    ExecResult.next reg (merge_point_add mps (u16At buf (pc + 1)) reg)
      (pc + logical_op_size)
  | FilterOp.LOAD_FIELD_REF => ExecResult.err (-EINVAL)
  | FilterOp.LOAD_FIELD_REF_STRING | FilterOp.LOAD_FIELD_REF_SEQUENCE =>
    ExecResult.next
      (setReg reg (byteAt buf (pc + 1))
        { type := RegType.STRING, literal := 0 })
      mps (pc + load_op_size + field_ref_size)
  | FilterOp.LOAD_FIELD_REF_S64 =>
    ExecResult.next
      (setReg reg (byteAt buf (pc + 1)) { type := RegType.S64, literal := 0 })
      mps (pc + load_op_size + field_ref_size)
  | FilterOp.LOAD_FIELD_REF_DOUBLE =>
    ExecResult.next
      (setReg reg (byteAt buf (pc + 1))
        { type := RegType.DOUBLE, literal := 0 })
      mps (pc + load_op_size + field_ref_size)
  | FilterOp.LOAD_STRING =>
    ExecResult.next
      (setReg reg (byteAt buf (pc + 1))
        { type := RegType.STRING, literal := 1 })
      mps (pc + load_op_size + strlen_from buf (pc + load_op_size) + 1)
  | FilterOp.LOAD_S64 =>
    ExecResult.next
      (setReg reg (byteAt buf (pc + 1)) { type := RegType.S64, literal := 1 })
      mps (pc + load_op_size + literal_numeric_size)
  | FilterOp.LOAD_DOUBLE =>
    ExecResult.next
      (setReg reg (byteAt buf (pc + 1))
        { type := RegType.DOUBLE, literal := 1 })
      mps (pc + load_op_size + literal_double_size)
  | FilterOp.CAST_TO_S64 | FilterOp.CAST_DOUBLE_TO_S64 =>
    let r := byteAt buf (pc + 1)
    ExecResult.next
      (setReg reg r { type := RegType.S64, literal := (getReg reg r).literal })
      mps (pc + cast_op_size)
  | FilterOp.CAST_NOP => ExecResult.next reg mps (pc + cast_op_size)

/-- Embedding of the driver loop of `lttng_filter_validate_bytecode`:
iterate while `pc < buffer length`, running the bounds check, the context
and merge-point validation, and the transfer function; `ret` is the C local
carrying the value returned when the loop condition fails (initially
-EINVAL, and 1 after any completed iteration).  Returns the final `ret`
together with the merge-point table left at exit. -/
def validate_loop (buf : List Nat) (reg : Regs) (mps : List MergeNode)
    (ret : Int) (pc : Nat) : Int × List MergeNode :=
  if _h : pc < buf.length then
    if bytecode_validate_overflow buf pc ≠ 0 then (-EINVAL, mps)
    else
      let ac := validate_instruction_all_contexts buf mps reg pc
      if ac.1 ≠ 0 then (ac.1, ac.2)
      else
        match hex : exec_insn buf reg ac.2 pc with
        | ExecResult.err e => (e, ac.2)
        | ExecResult.stop => (0, ac.2)
        | ExecResult.next reg2 mps2 npc => validate_loop buf reg2 mps2 1 npc
  else (ret, mps)
termination_by buf.length - pc
decreasing_by
  have hlt : pc < npc := by
    unfold exec_insn at hex
    cases hop : opcodeOfByte (byteAt buf pc) <;>
      rw [hop] at hex <;>
      simp only [unary_op_size, binary_op_size, logical_op_size,
        load_op_size, cast_op_size, field_ref_size, literal_numeric_size,
        literal_double_size, ExecResult.next.injEq, reduceCtorEq] at hex <;>
      omega
  omega

/-- State of the driver loop between iterations: register file, merge-point
table, the C `ret` local, and the program counter. -/
structure VState where
  reg : Regs
  mps : List MergeNode
  ret : Int
  pc : Nat
deriving DecidableEq, Repr

/-- Outcome of one driver iteration: continue with a new loop state, or halt
with the loop's result (final ret value and remaining merge table). -/
inductive StepOut where
  | cont (s : VState)
  | halt (out : Int × List MergeNode)
deriving DecidableEq, Repr

/-- One iteration of the driver loop, carved out of `validate_loop` so that
runs can be analysed step by step. -/
def validate_step (buf : List Nat) (reg : Regs) (mps : List MergeNode)
    (ret : Int) (pc : Nat) : StepOut :=
  if pc < buf.length then
    if bytecode_validate_overflow buf pc ≠ 0 then StepOut.halt (-EINVAL, mps)
    else
      let ac := validate_instruction_all_contexts buf mps reg pc
      if ac.1 ≠ 0 then StepOut.halt (ac.1, ac.2)
      else
        match exec_insn buf reg ac.2 pc with
        | ExecResult.err e => StepOut.halt (e, ac.2)
        | ExecResult.stop => StepOut.halt (0, ac.2)
        | ExecResult.next reg2 mps2 npc =>
          StepOut.cont { reg := reg2, mps := mps2, ret := 1, pc := npc }
  else StepOut.halt (ret, mps)

/-- The driver state after `n` completed loop iterations, starting from the
initial state of `lttng_filter_validate_bytecode` (registers UNKNOWN, empty
merge table, ret = -EINVAL, pc = 0); `none` once the loop has halted. -/
def runState (buf : List Nat) : Nat → Option VState
  | 0 => some { reg := initRegs, mps := [], ret := -EINVAL, pc := 0 }
  | n + 1 =>
    match runState buf n with
    | none => none
    | some s =>
      match validate_step buf s.reg s.mps s.ret s.pc with
      | StepOut.cont s2 => some s2
      | StepOut.halt _ => none

/-- Embedding of `lttng_filter_validate_bytecode`: run the driver loop from
the initial state; afterwards, if the merge-point table is non-empty while
ret reports success, the result becomes -EINVAL (unexpected merge points).
Returns 0 exactly when the bytecode is accepted. -/
def lttng_filter_validate_bytecode (buf : List Nat) : Int :=
  let out := validate_loop buf initRegs [] (-EINVAL) 0
  if out.2.length ≠ 0 then
    if out.1 = 0 then -EINVAL else out.1
  else out.1

/-- The encoded length of the instruction at `pc`, as consumed by the
validator: `none` for unknown and reserved (unsupported) opcodes, and for
LOAD_STRING the header plus the inline string and its NUL terminator. -/
def insn_encoded_len (buf : List Nat) (pc : Nat) : Option Nat :=
  match opcodeOfByte (byteAt buf pc) with
  | FilterOp.UNKNOWN => none
  | FilterOp.RETURN => some return_op_size
  | FilterOp.MUL | FilterOp.DIV | FilterOp.MOD | FilterOp.PLUS
  | FilterOp.MINUS | FilterOp.RSHIFT | FilterOp.LSHIFT | FilterOp.BIN_AND
  | FilterOp.BIN_OR | FilterOp.BIN_XOR => none
  | FilterOp.EQ | FilterOp.NE | FilterOp.GT | FilterOp.LT
  | FilterOp.GE | FilterOp.LE
  | FilterOp.EQ_STRING | FilterOp.NE_STRING | FilterOp.GT_STRING
  | FilterOp.LT_STRING | FilterOp.GE_STRING | FilterOp.LE_STRING
  | FilterOp.EQ_S64 | FilterOp.NE_S64 | FilterOp.GT_S64
  | FilterOp.LT_S64 | FilterOp.GE_S64 | FilterOp.LE_S64
  | FilterOp.EQ_DOUBLE | FilterOp.NE_DOUBLE | FilterOp.GT_DOUBLE
  | FilterOp.LT_DOUBLE | FilterOp.GE_DOUBLE | FilterOp.LE_DOUBLE =>
    some binary_op_size
  | FilterOp.UNARY_PLUS | FilterOp.UNARY_MINUS | FilterOp.UNARY_NOT
  | FilterOp.UNARY_PLUS_S64 | FilterOp.UNARY_MINUS_S64
  | FilterOp.UNARY_NOT_S64 | FilterOp.UNARY_PLUS_DOUBLE
  | FilterOp.UNARY_MINUS_DOUBLE | FilterOp.UNARY_NOT_DOUBLE =>
    some unary_op_size
  | FilterOp.AND | FilterOp.OR => some logical_op_size
  | FilterOp.LOAD_FIELD_REF => none
  | FilterOp.LOAD_FIELD_REF_STRING | FilterOp.LOAD_FIELD_REF_SEQUENCE
  | FilterOp.LOAD_FIELD_REF_S64 | FilterOp.LOAD_FIELD_REF_DOUBLE =>
    some (load_op_size + field_ref_size)
  | FilterOp.LOAD_STRING =>
    some (load_op_size + strlen_from buf (pc + load_op_size) + 1)
  | FilterOp.LOAD_S64 => some (load_op_size + literal_numeric_size)
  | FilterOp.LOAD_DOUBLE => some (load_op_size + literal_double_size)
  | FilterOp.CAST_TO_S64 | FilterOp.CAST_DOUBLE_TO_S64 | FilterOp.CAST_NOP =>
    some cast_op_size

/-- The comparison opcodes whose transfer function sets R0 to S64: the
generic, _STRING and _S64 comparison families. -/
def isCmpS64Result (op : FilterOp) : Bool :=
  match op with
  | FilterOp.EQ | FilterOp.NE | FilterOp.GT | FilterOp.LT
  | FilterOp.GE | FilterOp.LE
  | FilterOp.EQ_STRING | FilterOp.NE_STRING | FilterOp.GT_STRING
  | FilterOp.LT_STRING | FilterOp.GE_STRING | FilterOp.LE_STRING
  | FilterOp.EQ_S64 | FilterOp.NE_S64 | FilterOp.GT_S64
  | FilterOp.LT_S64 | FilterOp.GE_S64 | FilterOp.LE_S64 => true
  | _ => false

/-- The _DOUBLE comparison opcodes. -/
def isCmpDouble (op : FilterOp) : Bool :=
  match op with
  | FilterOp.EQ_DOUBLE | FilterOp.NE_DOUBLE | FilterOp.GT_DOUBLE
  | FilterOp.LT_DOUBLE | FilterOp.GE_DOUBLE | FilterOp.LE_DOUBLE => true
  | _ => false

/-- The generic comparison opcodes (EQ..LE), whose admissibility is decided
by `bin_op_compare_check`. -/
def isCmpGeneric (op : FilterOp) : Bool :=
  match op with
  | FilterOp.EQ | FilterOp.NE | FilterOp.GT | FilterOp.LT
  | FilterOp.GE | FilterOp.LE => true
  | _ => false

/-- The generic unary opcodes. -/
def isUnaryGeneric (op : FilterOp) : Bool :=
  match op with
  | FilterOp.UNARY_PLUS | FilterOp.UNARY_MINUS | FilterOp.UNARY_NOT => true
  | _ => false

/-- The _S64 unary opcodes. -/
def isUnaryS64 (op : FilterOp) : Bool :=
  match op with
  | FilterOp.UNARY_PLUS_S64 | FilterOp.UNARY_MINUS_S64
  | FilterOp.UNARY_NOT_S64 => true
  | _ => false

/-- The _DOUBLE unary opcodes. -/
def isUnaryDouble (op : FilterOp) : Bool :=
  match op with
  | FilterOp.UNARY_PLUS_DOUBLE | FilterOp.UNARY_MINUS_DOUBLE
  | FilterOp.UNARY_NOT_DOUBLE => true
  | _ => false

/-- Concrete accepted program: LOAD_S64 r0 7; LOAD_S64 r1 7; EQ; RETURN
(scenario 1 of the spec), 22 bytes. -/
def progOK : List Nat :=
  [49, 0, 7, 0, 0, 0, 0, 0, 0, 0,
   49, 1, 7, 0, 0, 0, 0, 0, 0, 0,
   12, 1]

/-- Concrete accepted program with a logical branch: LOAD_S64 r0 7 at 0;
AND with skip_offset 13 at 10; RETURN at 13.  14 bytes. -/
def progAnd : List Nat :=
  [49, 0, 7, 0, 0, 0, 0, 0, 0, 0,
   45, 13, 0, 1]

/-- Concrete rejected program with a residual merge point: LOAD_S64 r0 7 at
0; AND with skip_offset 14 at 10 (targeting past the RETURN); RETURN at 13. -/
def progResidual : List Nat :=
  [49, 0, 7, 0, 0, 0, 0, 0, 0, 0,
   45, 14, 0, 1]

/-- Concrete rejected program mixing string and numeric in a generic
comparator: LOAD_STRING r0 "x" at 0; LOAD_S64 r1 7 at 4; EQ at 14. -/
def progMix : List Nat :=
  [48, 0, 120, 0,
   49, 1, 7, 0, 0, 0, 0, 0, 0, 0,
   12, 1]

/-- Concrete rejected program whose generic comparator sees UNKNOWN operand
types: EQ at 0 with the initial register file. -/
def progUnknownOperands : List Nat :=
  [12, 1]

/-- Register file with both registers holding literal S64 values, as produced
by two LOAD_S64 instructions. -/
def regsLitS64 : Regs :=
  { r0 := { type := RegType.S64, literal := 1 },
    r1 := { type := RegType.S64, literal := 1 } }

/-- Register file after a single LOAD_S64 into R0 from the initial state. -/
def regsS64R0 : Regs :=
  { r0 := { type := RegType.S64, literal := 1 },
    r1 := { type := RegType.UNKNOWN, literal := 0 } }

theorem validate_loop_eq_step (buf : List Nat) (reg : Regs)
    (mps : List MergeNode) (ret : Int) (pc : Nat) :
    validate_loop buf reg mps ret pc =
      match validate_step buf reg mps ret pc with
      | StepOut.halt out => out
      | StepOut.cont s => validate_loop buf s.reg s.mps s.ret s.pc := by
  rw [validate_loop, validate_step]
  split
  · split
    · rfl
    · simp only []
      split
      · rfl
      · split <;> rename_i heq <;> rw [heq]
  · rfl

theorem loop_halt {buf : List Nat} {reg : Regs} {mps : List MergeNode}
    {ret : Int} {pc : Nat} {out : Int × List MergeNode}
    (h : validate_step buf reg mps ret pc = StepOut.halt out) :
    validate_loop buf reg mps ret pc = out := by
  rw [validate_loop_eq_step, h]

theorem loop_cont {buf : List Nat} {reg : Regs} {mps : List MergeNode}
    {ret : Int} {pc : Nat} {s : VState}
    (h : validate_step buf reg mps ret pc = StepOut.cont s) :
    validate_loop buf reg mps ret pc =
      validate_loop buf s.reg s.mps s.ret s.pc := by
  rw [validate_loop_eq_step, h]

theorem exec_next_progress {buf : List Nat} {reg : Regs}
    {mps : List MergeNode} {pc : Nat} {reg2 : Regs} {mps2 : List MergeNode}
    {npc : Nat} (h : exec_insn buf reg mps pc = ExecResult.next reg2 mps2 npc) :
    pc < npc := by
  unfold exec_insn at h
  cases hop : opcodeOfByte (byteAt buf pc) <;> rw [hop] at h <;>
    simp only [unary_op_size, binary_op_size, logical_op_size, load_op_size,
      cast_op_size, field_ref_size, literal_numeric_size, literal_double_size,
      ExecResult.next.injEq, reduceCtorEq] at h <;> omega

theorem exec_err_val {buf : List Nat} {reg : Regs} {mps : List MergeNode}
    {pc : Nat} {e : Int} (h : exec_insn buf reg mps pc = ExecResult.err e) :
    e = -EINVAL := by
  unfold exec_insn at h
  cases hop : opcodeOfByte (byteAt buf pc) <;> rw [hop] at h <;>
    simp only [ExecResult.err.injEq, reduceCtorEq] at h <;> omega

theorem neg_EINVAL_ne_zero : -EINVAL ≠ 0 := by decide

theorem neg_EINVAL_ne_one : -EINVAL ≠ 1 := by decide

theorem step_cont_elim {buf : List Nat} {reg : Regs} {mps : List MergeNode}
    {ret : Int} {pc : Nat} {s : VState}
    (h : validate_step buf reg mps ret pc = StepOut.cont s) :
    pc < buf.length ∧ bytecode_validate_overflow buf pc = 0 ∧
      (validate_instruction_all_contexts buf mps reg pc).1 = 0 ∧
      exec_insn buf reg (validate_instruction_all_contexts buf mps reg pc).2 pc
        = ExecResult.next s.reg s.mps s.pc ∧ s.ret = 1 := by
  unfold validate_step at h
  split at h
  · split at h
    · cases h
    · simp only [] at h
      split at h
      · cases h
      · split at h
        · cases h
        · cases h
        · rename_i hnn hz reg2 mps2 npc heq
          cases h
          refine ⟨by assumption, by omega, by omega, ?_, rfl⟩
          exact heq
  · cases h

theorem strnlen_le (buf : List Nat) (i m : Nat) :
    strnlen_from buf i m ≤ m := by
  induction m generalizing i with
  | zero => simp [strnlen_from]
  | succ m ih =>
    unfold strnlen_from
    split
    · omega
    · have := ih (i + 1)
      omega

theorem strnlen_nul {buf : List Nat} {i m : Nat}
    (h : strnlen_from buf i m < m) :
    byteAt buf (i + strnlen_from buf i m) = 0 := by
  induction m generalizing i with
  | zero => omega
  | succ m ih =>
    by_cases hb : byteAt buf i = 0
    · simp [strnlen_from, hb]
    · have hs : strnlen_from buf i (m + 1) = strnlen_from buf (i + 1) m + 1 := by
        simp [strnlen_from, hb]
      rw [hs] at h ⊢
      have hrec := ih (i := i + 1) (by omega)
      have harr : i + (strnlen_from buf (i + 1) m + 1)
          = i + 1 + strnlen_from buf (i + 1) m := by omega
      rw [harr]
      exact hrec

theorem strnlen_pos_below {buf : List Nat} {i m j : Nat}
    (hj : j < strnlen_from buf i m) :
    byteAt buf (i + j) ≠ 0 := by
  induction m generalizing i j with
  | zero => simp [strnlen_from] at hj
  | succ m ih =>
    unfold strnlen_from at hj
    split at hj
    · omega
    · rename_i hb
      cases j with
      | zero => simpa using hb
      | succ j =>
        have hrec := ih (i := i + 1) (j := j) (by omega)
        have harr : i + (j + 1) = i + 1 + j := by omega
        rw [harr]
        exact hrec

theorem strnlen_all_pos {buf : List Nat} {i m : Nat}
    (h : ∀ j, j < m → byteAt buf (i + j) ≠ 0) :
    strnlen_from buf i m = m := by
  induction m generalizing i with
  | zero => simp [strnlen_from]
  | succ m ih =>
    unfold strnlen_from
    rw [if_neg (by simpa using h 0 (by omega))]
    have hrec := ih (i := i + 1) (fun j hj => by
      have hj2 := h (j + 1) (by omega)
      have harr : i + (j + 1) = i + 1 + j := by omega
      rw [harr] at hj2
      exact hj2)
    omega

theorem strnlen_agree {buf buf2 : List Nat} {i m : Nat}
    (h : ∀ j, j < m → byteAt buf2 (i + j) = byteAt buf (i + j)) :
    strnlen_from buf2 i m = strnlen_from buf i m := by
  induction m generalizing i with
  | zero => simp [strnlen_from]
  | succ m ih =>
    unfold strnlen_from
    have h0 := h 0 (by omega)
    simp only [Nat.add_zero] at h0
    rw [h0]
    split
    · rfl
    · have hrec := ih (i := i + 1) (fun j hj => by
        have hj2 := h (j + 1) (by omega)
        have harr : i + (j + 1) = i + 1 + j := by omega
        rw [harr] at hj2
        exact hj2)
      omega

theorem strnlen_eq_of_nul {buf : List Nat} {i s m : Nat}
    (hnul : byteAt buf (i + s) = 0)
    (hpos : ∀ j, j < s → byteAt buf (i + j) ≠ 0) (hs : s < m) :
    strnlen_from buf i m = s := by
  induction s generalizing i m with
  | zero =>
    cases m with
    | zero => omega
    | succ m =>
      simp only [Nat.add_zero] at hnul
      simp [strnlen_from, hnul]
  | succ s ih =>
    cases m with
    | zero => omega
    | succ m =>
      have hb : byteAt buf i ≠ 0 := by simpa using hpos 0 (by omega)
      have hstep : strnlen_from buf i (m + 1)
          = strnlen_from buf (i + 1) m + 1 := by
        simp [strnlen_from, hb]
      rw [hstep]
      have hrec := ih (i := i + 1) (m := m)
        (by
          have harr : i + 1 + s = i + (s + 1) := by omega
          rw [harr]
          exact hnul)
        (fun j hj => by
          have harr : i + 1 + j = i + (j + 1) := by omega
          rw [harr]
          exact hpos (j + 1) (by omega))
        (by omega)
      omega

theorem strnlen_stable {buf : List Nat} {i m m2 : Nat}
    (h : strnlen_from buf i m < m) (hm : m ≤ m2) :
    strnlen_from buf i m2 = strnlen_from buf i m :=
  strnlen_eq_of_nul (strnlen_nul h) (fun _ hj => strnlen_pos_below hj)
    (lt_of_lt_of_le h hm)

theorem runState_decomp {buf : List Nat} {n : Nat} {s : VState}
    (h : runState buf n = some s) :
    validate_loop buf initRegs [] (-EINVAL) 0
      = validate_loop buf s.reg s.mps s.ret s.pc := by
  induction n generalizing s with
  | zero =>
    unfold runState at h
    injection h with h
    rw [← h]
  | succ n ih =>
    unfold runState at h
    cases hr : runState buf n with
    | none => rw [hr] at h; cases h
    | some s0 =>
      rw [hr] at h
      simp only [] at h
      cases hs : validate_step buf s0.reg s0.mps s0.ret s0.pc with
      | halt out => rw [hs] at h; cases h
      | cont s2 =>
        rw [hs] at h
        injection h with h
        rw [ih hr, loop_cont hs, h]

theorem runState_ret {buf : List Nat} {n : Nat} {s : VState}
    (h : runState buf n = some s) : s.ret = -EINVAL ∨ s.ret = 1 := by
  cases n with
  | zero =>
    unfold runState at h
    injection h with h
    rw [← h]
    left
    rfl
  | succ n =>
    unfold runState at h
    cases hr : runState buf n with
    | none => rw [hr] at h; cases h
    | some s0 =>
      rw [hr] at h
      simp only [] at h
      cases hs : validate_step buf s0.reg s0.mps s0.ret s0.pc with
      | halt out => rw [hs] at h; cases h
      | cont s2 =>
        rw [hs] at h
        injection h with h
        right
        rw [← h]
        exact (step_cont_elim hs).2.2.2.2

theorem runState_none_mono {buf : List Nat} {n n2 : Nat}
    (h : runState buf n = none) (hn : n ≤ n2) : runState buf n2 = none := by
  induction n2 with
  | zero =>
    have : n = 0 := by omega
    rw [← this]
    exact h
  | succ n2 ih =>
    rcases Nat.lt_or_ge n (n2 + 1) with h1 | h1
    · have h2 := ih (by omega)
      unfold runState
      rw [h2]
    · have : n = n2 + 1 := by omega
      rw [← this]
      exact h

theorem step_cont_progress {buf : List Nat} {reg : Regs}
    {mps : List MergeNode} {ret : Int} {pc : Nat} {s : VState}
    (h : validate_step buf reg mps ret pc = StepOut.cont s) : pc < s.pc :=
  exec_next_progress (step_cont_elim h).2.2.2.1

theorem runState_pc_succ {buf : List Nat} {n : Nat} {s s2 : VState}
    (h : runState buf n = some s) (h2 : runState buf (n + 1) = some s2) :
    s.pc < s2.pc := by
  unfold runState at h2
  rw [h] at h2
  simp only [] at h2
  cases hs : validate_step buf s.reg s.mps s.ret s.pc with
  | halt out => rw [hs] at h2; cases h2
  | cont s3 =>
    rw [hs] at h2
    injection h2 with h2
    rw [← h2]
    exact step_cont_progress hs

theorem runState_pc_mono {buf : List Nat} {n n2 : Nat} {s s2 : VState}
    (h : runState buf n = some s) (h2 : runState buf n2 = some s2)
    (hn : n ≤ n2) : s.pc ≤ s2.pc := by
  induction n2 generalizing s2 with
  | zero =>
    have h0 : n = 0 := by omega
    rw [h0] at h
    rw [h] at h2
    injection h2 with h2
    rw [h2]
  | succ n2 ih =>
    rcases Nat.lt_or_ge n (n2 + 1) with h1 | h1
    · cases hr : runState buf n2 with
      | none =>
        rw [runState_none_mono hr (by omega)] at h2
        cases h2
      | some s3 =>
        have hle := ih hr (by omega)
        have hlt := runState_pc_succ hr h2
        omega
    · have heq : n = n2 + 1 := by omega
      rw [heq] at h
      rw [h] at h2
      injection h2 with h2
      rw [h2]

theorem validate_zero_iff (buf : List Nat) :
    lttng_filter_validate_bytecode buf = 0 ↔
      (validate_loop buf initRegs [] (-EINVAL) 0).1 = 0 ∧
      (validate_loop buf initRegs [] (-EINVAL) 0).2 = [] := by
  unfold lttng_filter_validate_bytecode
  simp only []
  constructor
  · intro h
    split at h
    · split at h
      · exact absurd h neg_EINVAL_ne_zero
      · exact absurd h (by assumption)
    · rename_i hlen
      refine ⟨h, ?_⟩
      have hl : (validate_loop buf initRegs [] (-EINVAL) 0).2.length = 0 := by
        omega
      exact List.length_eq_zero.1 hl
  · intro ⟨h1, h2⟩
    rw [if_neg (by rw [h2]; simp)]
    exact h1

theorem exec_stop_iff {buf : List Nat} {reg : Regs} {mps : List MergeNode}
    {pc : Nat} :
    exec_insn buf reg mps pc = ExecResult.stop
      ↔ opcodeOfByte (byteAt buf pc) = FilterOp.RETURN := by
  constructor
  · intro h
    unfold exec_insn at h
    cases hop : opcodeOfByte (byteAt buf pc) <;> rw [hop] at h <;> simp_all
  · intro h
    unfold exec_insn
    rw [h]

theorem step_halt_zero_elim {buf : List Nat} {reg : Regs}
    {mps : List MergeNode} {ret : Int} {pc : Nat} {out : Int × List MergeNode}
    (h : validate_step buf reg mps ret pc = StepOut.halt out)
    (hz : out.1 = 0) (hr : ret = -EINVAL ∨ ret = 1) :
    pc < buf.length ∧ bytecode_validate_overflow buf pc = 0 ∧
      (validate_instruction_all_contexts buf mps reg pc).1 = 0 ∧
      exec_insn buf reg (validate_instruction_all_contexts buf mps reg pc).2 pc
        = ExecResult.stop ∧
      out = (0, (validate_instruction_all_contexts buf mps reg pc).2) := by
  unfold validate_step at h
  split at h
  · split at h
    · injection h with h
      rw [← h] at hz
      exact absurd hz neg_EINVAL_ne_zero
    · simp only [] at h
      split at h
      · injection h with h
        rw [← h] at hz
        simp_all
      · split at h
        · rename_i e heq
          injection h with h
          rw [← h] at hz
          have he := exec_err_val heq
          simp only [] at hz
          rw [he] at hz
          exact absurd hz neg_EINVAL_ne_zero
        · rename_i heq
          injection h with h
          refine ⟨by assumption, by omega, by omega, heq, h.symm⟩
        · cases h
  · injection h with h
    rw [← h] at hz
    simp only [] at hz
    rcases hr with h1 | h1 <;> rw [h1] at hz
    · exact absurd hz neg_EINVAL_ne_zero
    · exact absurd hz one_ne_zero

theorem accepted_loop_fst {buf : List Nat}
    (hacc : lttng_filter_validate_bytecode buf = 0) {n : Nat} {s : VState}
    (h : runState buf n = some s) :
    (validate_loop buf s.reg s.mps s.ret s.pc).1 = 0 := by
  rw [← runState_decomp h]
  exact ((validate_zero_iff buf).1 hacc).1

theorem accepted_step_shape {buf : List Nat}
    (hacc : lttng_filter_validate_bytecode buf = 0) {n : Nat} {s : VState}
    (h : runState buf n = some s) :
    (∃ s2, validate_step buf s.reg s.mps s.ret s.pc = StepOut.cont s2)
    ∨ (exec_insn buf s.reg
        (validate_instruction_all_contexts buf s.mps s.reg s.pc).2 s.pc
          = ExecResult.stop) := by
  have h0 := accepted_loop_fst hacc h
  cases hs : validate_step buf s.reg s.mps s.ret s.pc with
  | cont s2 => exact Or.inl ⟨s2, rfl⟩
  | halt out =>
    rw [loop_halt hs] at h0
    exact Or.inr (step_halt_zero_elim hs h0 (runState_ret h)).2.2.2.1

theorem accepted_reached_checks {buf : List Nat}
    (hacc : lttng_filter_validate_bytecode buf = 0) {n : Nat} {s : VState}
    (h : runState buf n = some s) :
    s.pc < buf.length ∧ bytecode_validate_overflow buf s.pc = 0 ∧
      (validate_instruction_all_contexts buf s.mps s.reg s.pc).1 = 0 := by
  have h0 := accepted_loop_fst hacc h
  cases hs : validate_step buf s.reg s.mps s.ret s.pc with
  | cont s2 =>
    have he := step_cont_elim hs
    exact ⟨he.1, he.2.1, he.2.2.1⟩
  | halt out =>
    rw [loop_halt hs] at h0
    have he := step_halt_zero_elim hs h0 (runState_ret h)
    exact ⟨he.1, he.2.1, he.2.2.1⟩

theorem all_contexts_fst_zero {buf : List Nat} {mps : List MergeNode}
    {reg : Regs} {pc : Nat}
    (h : (validate_instruction_all_contexts buf mps reg pc).1 = 0) :
    validate_instruction_context buf reg pc = 0 := by
  unfold validate_instruction_all_contexts at h
  by_cases hc : validate_instruction_context buf reg pc ≠ 0
  · rw [if_pos hc] at h
    exact absurd h hc
  · omega

theorem overflow_zero_encoded_len {buf : List Nat} {pc : Nat} {L : Nat}
    (hov : bytecode_validate_overflow buf pc = 0)
    (hlen : insn_encoded_len buf pc = some L) :
    pc + L ≤ buf.length := by
  unfold bytecode_validate_overflow at hov
  unfold insn_encoded_len at hlen
  cases hop : opcodeOfByte (byteAt buf pc)
  case LOAD_STRING =>
    rw [hop] at hov hlen
    simp only [Option.some.injEq] at hov hlen
    by_cases h2 : pc + load_op_size > buf.length
    · rw [if_pos h2] at hov
      exact absurd hov (by decide)
    · rw [if_neg h2] at hov
      by_cases h3 : strnlen_from buf (pc + load_op_size)
          (buf.length - pc - load_op_size) ≥ buf.length - pc - load_op_size
      · rw [if_pos h3] at hov
        exact absurd hov (by decide)
      · have hs : strlen_from buf (pc + load_op_size)
            = strnlen_from buf (pc + load_op_size)
              (buf.length - pc - load_op_size) := by
          unfold strlen_from
          congr 1
        rw [← hlen, hs]
        simp only [load_op_size] at h2 h3 ⊢
        omega
  all_goals (
    rw [hop] at hov hlen
    simp only [return_op_size, binary_op_size, unary_op_size, logical_op_size,
      load_op_size, cast_op_size, field_ref_size, literal_numeric_size,
      literal_double_size, Option.some.injEq, reduceCtorEq] at hov hlen
    <;> split at hov <;> simp_all [EINVAL] <;> omega)

theorem overflow_zero_loadstring_nul {buf : List Nat} {pc : Nat}
    (hop : opcodeOfByte (byteAt buf pc) = FilterOp.LOAD_STRING)
    (hov : bytecode_validate_overflow buf pc = 0) :
    byteAt buf (pc + load_op_size + strlen_from buf (pc + load_op_size)) = 0
      ∧ pc + load_op_size + strlen_from buf (pc + load_op_size)
        < buf.length := by
  unfold bytecode_validate_overflow at hov
  rw [hop] at hov
  simp only [] at hov
  by_cases h2 : pc + load_op_size > buf.length
  · rw [if_pos h2] at hov
    exact absurd hov (by decide)
  · rw [if_neg h2] at hov
    by_cases h3 : strnlen_from buf (pc + load_op_size)
        (buf.length - pc - load_op_size) ≥ buf.length - pc - load_op_size
    · rw [if_pos h3] at hov
      exact absurd hov (by decide)
    · have hs : strlen_from buf (pc + load_op_size)
          = strnlen_from buf (pc + load_op_size)
            (buf.length - pc - load_op_size) := by
        unfold strlen_from
        congr 1
      rw [hs]
      have hnul := @strnlen_nul buf (pc + load_op_size)
        (buf.length - pc - load_op_size) (by omega)
      refine ⟨hnul, ?_⟩
      have hle := strnlen_le buf (pc + load_op_size)
        (buf.length - pc - load_op_size)
      simp only [load_op_size] at h2 h3 ⊢
      omega

theorem loadstring_no_nul_reject {buf : List Nat} {pc : Nat}
    (hop : opcodeOfByte (byteAt buf pc) = FilterOp.LOAD_STRING)
    (hnonul : ∀ j, pc + load_op_size ≤ j → j < buf.length → byteAt buf j ≠ 0) :
    bytecode_validate_overflow buf pc = -EINVAL := by
  unfold bytecode_validate_overflow
  rw [hop]
  simp only []
  by_cases h2 : pc + load_op_size > buf.length
  · rw [if_pos h2]
  · rw [if_neg h2]
    have hall : strnlen_from buf (pc + load_op_size)
        (buf.length - pc - load_op_size) = buf.length - pc - load_op_size := by
      refine strnlen_all_pos (fun j hj => ?_)
      exact hnonul (pc + load_op_size + j) (by omega) (by omega)
    rw [if_pos (by omega)]

theorem exec_next_encoded_len {buf : List Nat} {reg : Regs}
    {mps : List MergeNode} {pc : Nat} {reg2 : Regs} {mps2 : List MergeNode}
    {npc : Nat}
    (h : exec_insn buf reg mps pc = ExecResult.next reg2 mps2 npc) :
    insn_encoded_len buf pc = some (npc - pc) := by
  unfold exec_insn at h
  unfold insn_encoded_len
  cases hop : opcodeOfByte (byteAt buf pc) <;> rw [hop] at h <;>
    simp only [ExecResult.next.injEq, reduceCtorEq, Option.some.injEq] at h ⊢
    <;> omega

theorem exec_next_le_length {buf : List Nat} {reg : Regs}
    {mps : List MergeNode} {pc : Nat} {reg2 : Regs} {mps2 : List MergeNode}
    {npc : Nat} (hov : bytecode_validate_overflow buf pc = 0)
    (h : exec_insn buf reg mps pc = ExecResult.next reg2 mps2 npc) :
    npc ≤ buf.length := by
  have h1 := exec_next_encoded_len h
  have h2 := overflow_zero_encoded_len hov h1
  have h3 := exec_next_progress h
  omega

theorem ctx_logical_skip {buf : List Nat} {reg : Regs} {pc : Nat}
    (hop : opcodeOfByte (byteAt buf pc) = FilterOp.AND
      ∨ opcodeOfByte (byteAt buf pc) = FilterOp.OR)
    (hctx : validate_instruction_context buf reg pc = 0) :
    pc < u16At buf (pc + 1) := by
  unfold validate_instruction_context at hctx
  rcases hop with hop | hop <;> rw [hop] at hctx <;>
    simp only [] at hctx <;>
    [skip; skip] <;>
    · split at hctx
      · exact absurd hctx (by decide)
      · split at hctx
        · exact absurd hctx (by decide)
        · omega

theorem loop_cont2 {buf : List Nat} {reg : Regs} {mps : List MergeNode}
    {ret : Int} {pc : Nat} {reg2 : Regs} {mps2 : List MergeNode} {ret2 : Int}
    {pc2 : Nat}
    (h : validate_step buf reg mps ret pc
      = StepOut.cont { reg := reg2, mps := mps2, ret := ret2, pc := pc2 }) :
    validate_loop buf reg mps ret pc = validate_loop buf reg2 mps2 ret2 pc2 :=
  loop_cont h

theorem progOK_loop :
    validate_loop progOK initRegs [] (-EINVAL) 0 = (0, []) := by
  have e0 : validate_step progOK initRegs [] (-EINVAL) 0
      = StepOut.cont { reg := regsS64R0, mps := [], ret := 1, pc := 10 } := by
    decide
  have e1 : validate_step progOK regsS64R0 [] 1 10
      = StepOut.cont { reg := regsLitS64, mps := [], ret := 1, pc := 20 } := by
    decide
  have e2 : validate_step progOK regsLitS64 [] 1 20
      = StepOut.cont { reg := regsLitS64, mps := [], ret := 1, pc := 21 } := by
    decide
  have e3 : validate_step progOK regsLitS64 [] 1 21
      = StepOut.halt (0, []) := by decide
  rw [loop_cont2 e0, loop_cont2 e1, loop_cont2 e2, loop_halt e3]

theorem progOK_accept : lttng_filter_validate_bytecode progOK = 0 := by
  unfold lttng_filter_validate_bytecode
  rw [progOK_loop]
  rfl

theorem progAnd_loop :
    validate_loop progAnd initRegs [] (-EINVAL) 0 = (0, []) := by
  have e0 : validate_step progAnd initRegs [] (-EINVAL) 0
      = StepOut.cont { reg := regsS64R0, mps := [], ret := 1, pc := 10 } := by
    decide
  have e1 : validate_step progAnd regsS64R0 [] 1 10
      = StepOut.cont ⟨regsS64R0, [⟨13, regsS64R0⟩], 1, 13⟩ := by decide
  have e2 : validate_step progAnd regsS64R0 [⟨13, regsS64R0⟩] 1 13
      = StepOut.halt (0, []) := by decide
  rw [loop_cont2 e0, loop_cont2 e1, loop_halt e2]

theorem progAnd_accept : lttng_filter_validate_bytecode progAnd = 0 := by
  unfold lttng_filter_validate_bytecode
  rw [progAnd_loop]
  rfl

theorem progResidual_loop :
    validate_loop progResidual initRegs [] (-EINVAL) 0
      = (0, [⟨14, regsS64R0⟩]) := by
  have e0 : validate_step progResidual initRegs [] (-EINVAL) 0
      = StepOut.cont { reg := regsS64R0, mps := [], ret := 1, pc := 10 } := by
    decide
  have e1 : validate_step progResidual regsS64R0 [] 1 10
      = StepOut.cont ⟨regsS64R0, [⟨14, regsS64R0⟩], 1, 13⟩ := by decide
  have e2 : validate_step progResidual regsS64R0 [⟨14, regsS64R0⟩] 1 13
      = StepOut.halt (0, [⟨14, regsS64R0⟩]) := by
    decide
  rw [loop_cont2 e0, loop_cont2 e1, loop_halt e2]

/-- Claim C9: the empty buffer is rejected: the driver loop body never
executes and the validator returns the initial error value -EINVAL, even
though the empty program contains no invalid instruction. -/
theorem c9_empty_buffer_rejected :
    lttng_filter_validate_bytecode [] = -EINVAL := by
  have e0 : validate_step ([] : List Nat) initRegs [] (-EINVAL) 0
      = StepOut.halt (-EINVAL, []) := by decide
  unfold lttng_filter_validate_bytecode
  rw [loop_halt e0]
  rfl

/-- Claim C3: on every accepted buffer the merge-point table is empty at
termination, and whenever entries remain after the walk the program is
rejected rather than accepted. -/
theorem c3_merge_residue (buf : List Nat) :
    (lttng_filter_validate_bytecode buf = 0
      → (validate_loop buf initRegs [] (-EINVAL) 0).2 = [])
    ∧ ((validate_loop buf initRegs [] (-EINVAL) 0).2 ≠ []
      → lttng_filter_validate_bytecode buf ≠ 0) := by
  refine ⟨fun h => ((validate_zero_iff buf).1 h).2, fun h hacc => ?_⟩
  exact h ((validate_zero_iff buf).1 hacc).2

theorem c3_merge_residue_witness :
    (validate_loop progOK initRegs [] (-EINVAL) 0).2 = []
    ∧ lttng_filter_validate_bytecode progResidual ≠ 0 := by
  constructor
  · exact (c3_merge_residue progOK).1 progOK_accept
  · exact (c3_merge_residue progResidual).2 (by rw [progResidual_loop]; simp)

/-- Claim C1: on every accepted buffer, every instruction reached by the
driver at offset p with encoded length L satisfies p + L ≤ buffer length; in
particular every accepted LOAD_STRING has its NUL terminator inside the
buffer; and a LOAD_STRING with no NUL terminator in the remaining bytes
makes the driver iteration halt with -EINVAL at the bounds check, before the
type checker or the transfer function runs. -/
theorem c1_bounds (buf : List Nat) (n : Nat) (s : VState) (L : Nat)
    (hacc : lttng_filter_validate_bytecode buf = 0)
    (hrun : runState buf n = some s) :
    (insn_encoded_len buf s.pc = some L → s.pc + L ≤ buf.length)
    ∧ (opcodeOfByte (byteAt buf s.pc) = FilterOp.LOAD_STRING →
        byteAt buf
            (s.pc + load_op_size + strlen_from buf (s.pc + load_op_size)) = 0
        ∧ s.pc + load_op_size + strlen_from buf (s.pc + load_op_size)
            < buf.length)
    ∧ (∀ (buf2 : List Nat) (reg2 : Regs) (mps2 : List MergeNode) (ret2 : Int)
          (pc2 : Nat),
        opcodeOfByte (byteAt buf2 pc2) = FilterOp.LOAD_STRING →
        (∀ j, pc2 + load_op_size ≤ j → j < buf2.length → byteAt buf2 j ≠ 0) →
        pc2 < buf2.length →
        validate_step buf2 reg2 mps2 ret2 pc2
          = StepOut.halt (-EINVAL, mps2)) := by
  have hc := accepted_reached_checks hacc hrun
  refine ⟨fun hlen => overflow_zero_encoded_len hc.2.1 hlen,
    fun hop => overflow_zero_loadstring_nul hop hc.2.1, ?_⟩
  intro buf2 reg2 mps2 ret2 pc2 hop hnonul hpc
  have hov := loadstring_no_nul_reject hop hnonul
  unfold validate_step
  rw [if_pos hpc, if_pos (by rw [hov]; decide)]

theorem c1_bounds_witness :
    ((0 : Nat) + 10 ≤ progOK.length)
    ∧ validate_step [48, 0, 65] initRegs [] 1 0 = StepOut.halt (-EINVAL, []) := by
  constructor
  · exact (c1_bounds progOK 0 ⟨initRegs, [], -EINVAL, 0⟩ 10 progOK_accept
      (by decide)).1 (by decide)
  · exact (c1_bounds progOK 0 ⟨initRegs, [], -EINVAL, 0⟩ 10 progOK_accept
      (by decide)).2.2 [48, 0, 65] initRegs [] 1 0 (by decide) (by decide)
      (by decide)

/-- Claim C2: on every accepted buffer, every AND or OR instruction reached
by the driver at offset p has a skip_offset strictly greater than p (the
validator rejects a logical branch whose target is at or before its own
offset), so accepted programs contain only forward branches. -/
theorem c2_forward_branches (buf : List Nat) (n : Nat) (s : VState)
    (hacc : lttng_filter_validate_bytecode buf = 0)
    (hrun : runState buf n = some s)
    (hop : opcodeOfByte (byteAt buf s.pc) = FilterOp.AND
      ∨ opcodeOfByte (byteAt buf s.pc) = FilterOp.OR) :
    s.pc < u16At buf (s.pc + 1) := by
  have hc := accepted_reached_checks hacc hrun
  exact ctx_logical_skip hop (all_contexts_fst_zero hc.2.2)

theorem c2_forward_branches_witness : (10 : Nat) < u16At progAnd (10 + 1) := by
  have hrun : runState progAnd 1 = some ⟨regsS64R0, [], 1, 10⟩ := by decide
  exact c2_forward_branches progAnd 1 ⟨regsS64R0, [], 1, 10⟩ progAnd_accept
    hrun (Or.inl (by decide))

/-- Claim C8: the transfer function advances the program counter by at least
one byte whenever it continues to a next instruction, and every driver state
after n completed iterations has n ≤ pc ≤ buffer length, so the front-to-back
walk performs at most buffer-length iterations before completing or
failing. -/
theorem c8_progress_linear :
    (∀ (buf : List Nat) (reg : Regs) (mps : List MergeNode) (pc : Nat)
        (reg2 : Regs) (mps2 : List MergeNode) (npc : Nat),
      exec_insn buf reg mps pc = ExecResult.next reg2 mps2 npc
        → pc + 1 ≤ npc)
    ∧ (∀ (buf : List Nat) (n : Nat) (s : VState),
        runState buf n = some s → n ≤ s.pc ∧ s.pc ≤ buf.length) := by
  constructor
  · intro buf reg mps pc reg2 mps2 npc h
    exact exec_next_progress h
  · intro buf n s h
    induction n generalizing s with
    | zero =>
      unfold runState at h
      injection h with h
      rw [← h]
      exact ⟨Nat.le_refl 0, Nat.zero_le _⟩
    | succ n ih =>
      unfold runState at h
      cases hr : runState buf n with
      | none => rw [hr] at h; cases h
      | some s0 =>
        rw [hr] at h
        simp only [] at h
        cases hs : validate_step buf s0.reg s0.mps s0.ret s0.pc with
        | halt out => rw [hs] at h; cases h
        | cont s2 =>
          rw [hs] at h
          injection h with h
          have hprev := ih s0 hr
          have hlt := step_cont_progress hs
          have he := step_cont_elim hs
          have hle := exec_next_le_length he.2.1 he.2.2.2.1
          rw [← h]
          omega

theorem c8_progress_linear_witness :
    ((0 : Nat) + 1 ≤ 10) ∧ ((3 : Nat) ≤ 21 ∧ (21 : Nat) ≤ progOK.length) := by
  constructor
  · exact c8_progress_linear.1 progOK initRegs [] 0 regsS64R0 [] 10 (by decide)
  · exact c8_progress_linear.2 progOK 3 ⟨regsLitS64, [], 1, 21⟩ (by decide)

theorem ctx_generic_cmp {buf : List Nat} {reg : Regs} {pc : Nat}
    (hop : isCmpGeneric (opcodeOfByte (byteAt buf pc)) = true) :
    validate_instruction_context buf reg pc = bin_op_compare_check reg := by
  unfold validate_instruction_context
  cases hop2 : opcodeOfByte (byteAt buf pc) <;> rw [hop2] at hop <;>
    simp only [isCmpGeneric, reduceCtorEq] at hop <;> rfl

theorem progMix_reject :
    lttng_filter_validate_bytecode progMix = -EINVAL := by
  have e0 : validate_step progMix initRegs [] (-EINVAL) 0
      = StepOut.cont ⟨⟨⟨RegType.STRING, 1⟩, ⟨RegType.UNKNOWN, 0⟩⟩, [], 1, 4⟩ := by
    decide
  have e1 : validate_step progMix ⟨⟨RegType.STRING, 1⟩, ⟨RegType.UNKNOWN, 0⟩⟩
      [] 1 4
      = StepOut.cont ⟨⟨⟨RegType.STRING, 1⟩, ⟨RegType.S64, 1⟩⟩, [], 1, 14⟩ := by
    decide
  have e2 : validate_step progMix ⟨⟨RegType.STRING, 1⟩, ⟨RegType.S64, 1⟩⟩
      [] 1 14
      = StepOut.halt (-EINVAL, []) := by decide
  unfold lttng_filter_validate_bytecode
  rw [loop_cont2 e0, loop_cont2 e1, loop_halt e2]
  rfl

theorem progUnknown_reject :
    lttng_filter_validate_bytecode progUnknownOperands = -EINVAL := by
  have e0 : validate_step progUnknownOperands initRegs [] (-EINVAL) 0
      = StepOut.halt (-EINVAL, []) := by decide
  unfold lttng_filter_validate_bytecode
  rw [loop_halt e0]
  rfl

/-- Claim C5 counterexample: with both registers holding literal S64 values
(a pre-state that passes the EQ type check), the transfer function for EQ
sets R0.type = S64 but leaves R0.literal at 1, contradicting the claimed
post-condition R0.literal = 0. -/
theorem c5_literal_not_cleared_counterexample :
    validate_instruction_context [12] regsLitS64 0 = 0
    ∧ exec_insn [12] regsLitS64 [] 0 = ExecResult.next regsLitS64 [] 1
    ∧ (getReg regsLitS64 REG_R0).literal ≠ 0 := by decide

/-- Claim C5 (amended): after any generic, _STRING or _S64 comparison opcode
the transfer function sets R0.type = S64, and after any _DOUBLE comparison
it sets R0.type = DOUBLE; in both cases R0.literal is left unchanged from
the pre-state (the source never clears the literal flag here), for every
pre-state. -/
theorem c5_compare_transfer (buf : List Nat) (reg : Regs)
    (mps : List MergeNode) (pc : Nat) :
    (isCmpS64Result (opcodeOfByte (byteAt buf pc)) = true →
      exec_insn buf reg mps pc = ExecResult.next
        (setReg reg REG_R0 ⟨RegType.S64, (getReg reg REG_R0).literal⟩) mps
        (pc + binary_op_size))
    ∧ (isCmpDouble (opcodeOfByte (byteAt buf pc)) = true →
      exec_insn buf reg mps pc = ExecResult.next
        (setReg reg REG_R0 ⟨RegType.DOUBLE, (getReg reg REG_R0).literal⟩) mps
        (pc + binary_op_size)) := by
  constructor <;>
    (intro hcmp
     unfold exec_insn
     cases hop : opcodeOfByte (byteAt buf pc) <;> rw [hop] at hcmp <;>
       simp only [isCmpS64Result, isCmpDouble, reduceCtorEq] at hcmp <;> rfl)

theorem c5_compare_transfer_witness :
    exec_insn [12] regsLitS64 [] 0 = ExecResult.next
      (setReg regsLitS64 REG_R0
        ⟨RegType.S64, (getReg regsLitS64 REG_R0).literal⟩) []
      (0 + binary_op_size) :=
  (c5_compare_transfer [12] regsLitS64 [] 0).1 (by decide)

/-- Claim C6: the type checker accepts a _DOUBLE comparison opcode iff each
of R0 and R1 has type S64 or DOUBLE and at least one of them is DOUBLE; any
other register-type pair (both-S64 rejected by the at-least-one-DOUBLE
check, any STRING or UNKNOWN operand by the numeric check) yields -EINVAL. -/
theorem c6_double_compare (buf : List Nat) (reg : Regs) (pc : Nat)
    (hop : isCmpDouble (opcodeOfByte (byteAt buf pc)) = true) :
    (validate_instruction_context buf reg pc = 0 ↔
      (((getReg reg REG_R0).type = RegType.S64
          ∨ (getReg reg REG_R0).type = RegType.DOUBLE)
        ∧ ((getReg reg REG_R1).type = RegType.S64
          ∨ (getReg reg REG_R1).type = RegType.DOUBLE)
        ∧ ((getReg reg REG_R0).type = RegType.DOUBLE
          ∨ (getReg reg REG_R1).type = RegType.DOUBLE)))
    ∧ (validate_instruction_context buf reg pc = 0
        ∨ validate_instruction_context buf reg pc = -EINVAL) := by
  unfold validate_instruction_context
  cases hop2 : opcodeOfByte (byteAt buf pc) <;> rw [hop2] at hop <;>
    simp only [isCmpDouble, reduceCtorEq] at hop <;>
    cases h0 : (getReg reg REG_R0).type <;>
    cases h1 : (getReg reg REG_R1).type <;>
    simp [h0, h1, EINVAL]

theorem c6_double_compare_witness :
    validate_instruction_context [30] ⟨⟨RegType.DOUBLE, 0⟩, ⟨RegType.S64, 0⟩⟩ 0
      = 0 :=
  ((c6_double_compare [30] ⟨⟨RegType.DOUBLE, 0⟩, ⟨RegType.S64, 0⟩⟩ 0
    (by decide)).1).mpr (by decide)

/-- Claim C7 counterexample: cross-type mixing in a generic comparator (R0
string, R1 numeric) and an UNKNOWN operand type are surfaced as the same
error value -EINVAL, both from bin_op_compare_check and from the whole
validator, so the two failure modes are not distinct error kinds in the
code's observable result. -/
theorem c7_error_kinds_counterexample :
    bin_op_compare_check ⟨⟨RegType.STRING, 1⟩, ⟨RegType.S64, 1⟩⟩
      = bin_op_compare_check ⟨⟨RegType.UNKNOWN, 0⟩, ⟨RegType.UNKNOWN, 0⟩⟩
    ∧ bin_op_compare_check ⟨⟨RegType.STRING, 1⟩, ⟨RegType.S64, 1⟩⟩ = -EINVAL
    ∧ lttng_filter_validate_bytecode progMix
      = lttng_filter_validate_bytecode progUnknownOperands
    ∧ lttng_filter_validate_bytecode progMix = -EINVAL := by
  refine ⟨by decide, by decide, ?_, progMix_reject⟩
  rw [progMix_reject, progUnknown_reject]

/-- Claim C7 (amended): cross-type mixing of operands and an UNKNOWN operand
register in a generic comparator take distinct diagnostic paths but are
surfaced as the same error value -EINVAL; the generic comparator's context
check is exactly bin_op_compare_check, and when the driver reaches a generic
comparator whose operands fail that check, validation terminates and returns
-EINVAL verbatim. -/
theorem c7_mix_unknown_same_error (buf : List Nat) (reg : Regs) (pc : Nat)
    (n : Nat) (s : VState) :
    ((getReg reg REG_R0).type = RegType.STRING →
      ((getReg reg REG_R1).type = RegType.S64
        ∨ (getReg reg REG_R1).type = RegType.DOUBLE) →
      bin_op_compare_check reg = -EINVAL)
    ∧ ((getReg reg REG_R0).type = RegType.UNKNOWN →
        bin_op_compare_check reg = -EINVAL)
    ∧ (isCmpGeneric (opcodeOfByte (byteAt buf pc)) = true →
        validate_instruction_context buf reg pc = bin_op_compare_check reg)
    ∧ (runState buf n = some s →
        isCmpGeneric (opcodeOfByte (byteAt buf s.pc)) = true →
        s.pc < buf.length →
        bytecode_validate_overflow buf s.pc = 0 →
        bin_op_compare_check s.reg = -EINVAL →
        lttng_filter_validate_bytecode buf = -EINVAL) := by
  refine ⟨?_, ?_, fun hop => ctx_generic_cmp hop, ?_⟩
  · intro h0 h1
    unfold bin_op_compare_check
    rw [h0]
    rcases h1 with h1 | h1 <;> rw [h1]
  · intro h0
    unfold bin_op_compare_check
    rw [h0]
  · intro hrun hop hpc hov hbin
    have hctx : validate_instruction_context buf s.reg s.pc = -EINVAL := by
      rw [ctx_generic_cmp hop, hbin]
    have hac : validate_instruction_all_contexts buf s.mps s.reg s.pc
        = (-EINVAL, s.mps) := by
      unfold validate_instruction_all_contexts
      rw [hctx]
      simp [EINVAL]
    have hstep : validate_step buf s.reg s.mps s.ret s.pc
        = StepOut.halt (-EINVAL, s.mps) := by
      unfold validate_step
      rw [if_pos hpc, if_neg (by rw [hov]; simp)]
      simp [hac, EINVAL]
    unfold lttng_filter_validate_bytecode
    rw [runState_decomp hrun, loop_halt hstep]
    simp only []
    split
    · rw [if_neg (by decide)]
    · rfl

theorem c7_mix_unknown_same_error_witness :
    bin_op_compare_check ⟨⟨RegType.STRING, 1⟩, ⟨RegType.S64, 1⟩⟩ = -EINVAL
    ∧ lttng_filter_validate_bytecode progMix = -EINVAL := by
  constructor
  · exact (c7_mix_unknown_same_error progMix
      ⟨⟨RegType.STRING, 1⟩, ⟨RegType.S64, 1⟩⟩ 14 2
      ⟨⟨⟨RegType.STRING, 1⟩, ⟨RegType.S64, 1⟩⟩, [], 1, 14⟩).1 (by decide)
      (Or.inl (by decide))
  · exact (c7_mix_unknown_same_error progMix
      ⟨⟨RegType.STRING, 1⟩, ⟨RegType.S64, 1⟩⟩ 14 2
      ⟨⟨⟨RegType.STRING, 1⟩, ⟨RegType.S64, 1⟩⟩, [], 1, 14⟩).2.2.2 (by decide)
      (by decide) (by decide) (by decide) (by decide)

/-- Claim C10: for every unary opcode (generic, _S64 and _DOUBLE variants)
whose reg field names R1, the type checker reads R1's type (the
admissibility condition is on R1), while the transfer function always
writes R0: it sets R0.type to S64 (generic and _S64 variants) or DOUBLE
(_DOUBLE variants), preserving R0.literal, and leaves R1 unchanged (setReg
at R0 does not touch R1). -/
theorem c10_unary_checks_reg_writes_r0 (buf : List Nat) (reg : Regs)
    (mps : List MergeNode) (pc : Nat)
    (hreg : byteAt buf (pc + 1) = REG_R1) :
    ((isUnaryGeneric (opcodeOfByte (byteAt buf pc)) = true →
      (validate_instruction_context buf reg pc = 0 ↔
        ((getReg reg REG_R1).type = RegType.S64
          ∨ (getReg reg REG_R1).type = RegType.DOUBLE)))
    ∧ (isUnaryS64 (opcodeOfByte (byteAt buf pc)) = true →
      (validate_instruction_context buf reg pc = 0 ↔
        (getReg reg REG_R1).type = RegType.S64))
    ∧ (isUnaryDouble (opcodeOfByte (byteAt buf pc)) = true →
      (validate_instruction_context buf reg pc = 0 ↔
        (getReg reg REG_R1).type = RegType.DOUBLE)))
    ∧ (((isUnaryGeneric (opcodeOfByte (byteAt buf pc)) = true
          ∨ isUnaryS64 (opcodeOfByte (byteAt buf pc)) = true) →
      exec_insn buf reg mps pc = ExecResult.next
        (setReg reg REG_R0 ⟨RegType.S64, (getReg reg REG_R0).literal⟩) mps
        (pc + unary_op_size))
    ∧ (isUnaryDouble (opcodeOfByte (byteAt buf pc)) = true →
      exec_insn buf reg mps pc = ExecResult.next
        (setReg reg REG_R0 ⟨RegType.DOUBLE, (getReg reg REG_R0).literal⟩) mps
        (pc + unary_op_size))
    ∧ (∀ v : vreg, getReg (setReg reg REG_R0 v) REG_R1 = getReg reg REG_R1
        ∧ getReg (setReg reg REG_R0 v) REG_R0 = v)) := by
  refine ⟨⟨?_, ?_, ?_⟩, ?_, ?_, ?_⟩
  · intro hop
    unfold validate_instruction_context
    cases hop2 : opcodeOfByte (byteAt buf pc) <;> rw [hop2] at hop <;>
      simp only [isUnaryGeneric, reduceCtorEq] at hop <;>
      rw [hreg] <;>
      cases h1 : reg.r1.type <;>
        simp [h1, REG_R1, REG_ERROR, getReg, EINVAL]
  · intro hop
    unfold validate_instruction_context
    cases hop2 : opcodeOfByte (byteAt buf pc) <;> rw [hop2] at hop <;>
      simp only [isUnaryS64, reduceCtorEq] at hop <;>
      rw [hreg] <;>
      cases h1 : reg.r1.type <;>
        simp [h1, REG_R1, REG_ERROR, getReg, EINVAL]
  · intro hop
    unfold validate_instruction_context
    cases hop2 : opcodeOfByte (byteAt buf pc) <;> rw [hop2] at hop <;>
      simp only [isUnaryDouble, reduceCtorEq] at hop <;>
      rw [hreg] <;>
      cases h1 : reg.r1.type <;>
        simp [h1, REG_R1, REG_ERROR, getReg, EINVAL]
  · intro hop
    unfold exec_insn
    cases hop2 : opcodeOfByte (byteAt buf pc) <;> rw [hop2] at hop <;>
      simp only [isUnaryGeneric, isUnaryS64, reduceCtorEq, or_self,
        Bool.false_eq_true] at hop <;> rfl
  · intro hop
    unfold exec_insn
    cases hop2 : opcodeOfByte (byteAt buf pc) <;> rw [hop2] at hop <;>
      simp only [isUnaryDouble, reduceCtorEq] at hop <;> rfl
  · intro v
    constructor <;> rfl

theorem c10_unary_witness :
    (validate_instruction_context [38, 1] regsS64R0 0 ≠ 0)
    ∧ exec_insn [38, 1] regsS64R0 [] 0 = ExecResult.next
      (setReg regsS64R0 REG_R0
        ⟨RegType.S64, (getReg regsS64R0 REG_R0).literal⟩) []
      (0 + unary_op_size) := by
  constructor
  · intro h
    have hiff := ((c10_unary_checks_reg_writes_r0 [38, 1] regsS64R0 [] 0
      (by decide)).1).1 (by decide)
    have := hiff.1 h
    revert this
    decide
  · exact (c10_unary_checks_reg_writes_r0 [38, 1] regsS64R0 [] 0
      (by decide)).2.1 (Or.inl (by decide))

theorem byteAt_take : ∀ (buf : List Nat) (k j : Nat), j < k →
    byteAt (List.take k buf) j = byteAt buf j := by
  intro buf
  induction buf with
  | nil => intro k j _; simp [List.take_nil]
  | cons b rest ih =>
    intro k j h
    cases k with
    | zero => omega
    | succ k =>
      cases j with
      | zero => rfl
      | succ j =>
        have hrec := ih k j (by omega)
        simp only [List.take_succ_cons, byteAt, List.getD_cons_succ] at hrec ⊢
        exact hrec

theorem u16At_take {buf : List Nat} {k j : Nat} (h : j + 1 < k) :
    u16At (List.take k buf) j = u16At buf j := by
  unfold u16At
  rw [byteAt_take buf k j (by omega), byteAt_take buf k (j + 1) h]

theorem take_length_eq {buf : List Nat} {k : Nat} (h : k ≤ buf.length) :
    (List.take k buf).length = k := by
  simp [List.length_take]
  omega

theorem ctx_take_agree {buf : List Nat} {k pc npc : Nat} {reg : Regs}
    {mps : List MergeNode} {reg2 : Regs} {mps2 : List MergeNode}
    (hex : exec_insn buf reg mps pc = ExecResult.next reg2 mps2 npc)
    (hnpc : npc ≤ k) :
    ∀ reg3 : Regs, validate_instruction_context (List.take k buf) reg3 pc
      = validate_instruction_context buf reg3 pc := by
  intro reg3
  have hpck : pc < k := lt_of_lt_of_le (exec_next_progress hex) hnpc
  have hb0 : byteAt (List.take k buf) pc = byteAt buf pc :=
    byteAt_take buf k pc hpck
  unfold validate_instruction_context
  rw [hb0]
  unfold exec_insn at hex
  cases hop : opcodeOfByte (byteAt buf pc) <;> rw [hop] at hex <;>
    simp only [unary_op_size, binary_op_size, logical_op_size, load_op_size,
      cast_op_size, field_ref_size, literal_numeric_size, literal_double_size,
      ExecResult.next.injEq, reduceCtorEq] at hex <;>
    (try rfl) <;>
    (obtain ⟨h1, h2, h3⟩ := hex) <;>
    (try rw [byteAt_take buf k (pc + 1) (by omega)]) <;>
    (try rw [u16At_take (show pc + 1 + 1 < k by omega)]) <;>
    rfl

theorem strlen_pos_below {buf : List Nat} {i j : Nat}
    (hj : j < strlen_from buf i) : byteAt buf (i + j) ≠ 0 := by
  unfold strlen_from at hj
  exact strnlen_pos_below hj

theorem loadstring_take_strlen {buf : List Nat} {k pc : Nat}
    (hop : opcodeOfByte (byteAt buf pc) = FilterOp.LOAD_STRING)
    (hov : bytecode_validate_overflow buf pc = 0)
    (hk : pc + load_op_size + strlen_from buf (pc + load_op_size) + 1 ≤ k)
    (hkl : k ≤ buf.length) :
    strlen_from (List.take k buf) (pc + load_op_size)
      = strlen_from buf (pc + load_op_size)
    ∧ strnlen_from (List.take k buf) (pc + load_op_size)
        (k - pc - load_op_size)
      = strlen_from buf (pc + load_op_size) := by
  obtain ⟨hnul, hlt⟩ := overflow_zero_loadstring_nul hop hov
  constructor
  · have hmeq : strlen_from (List.take k buf) (pc + load_op_size)
        = strnlen_from (List.take k buf) (pc + load_op_size)
          (k - (pc + load_op_size)) := by
      unfold strlen_from
      rw [take_length_eq hkl]
    rw [hmeq]
    refine strnlen_eq_of_nul ?_ ?_ ?_
    · rw [byteAt_take buf k _ (by omega)]
      exact hnul
    · intro j hj
      rw [byteAt_take buf k _ (by omega)]
      exact strlen_pos_below hj
    · omega
  · refine strnlen_eq_of_nul ?_ ?_ ?_
    · rw [byteAt_take buf k _ (by omega)]
      exact hnul
    · intro j hj
      rw [byteAt_take buf k _ (by omega)]
      exact strlen_pos_below hj
    · omega

theorem exec_take_agree {buf : List Nat} {k pc npc : Nat} {reg : Regs}
    {mps : List MergeNode} {reg2 : Regs} {mps2 : List MergeNode}
    (hex : exec_insn buf reg mps pc = ExecResult.next reg2 mps2 npc)
    (hov : bytecode_validate_overflow buf pc = 0)
    (hnpc : npc ≤ k) (hkl : k ≤ buf.length) :
    exec_insn (List.take k buf) reg mps pc
      = ExecResult.next reg2 mps2 npc := by
  have hpck : pc < k := lt_of_lt_of_le (exec_next_progress hex) hnpc
  have hb0 := byteAt_take buf k pc hpck
  unfold exec_insn at hex ⊢
  rw [hb0]
  cases hop : opcodeOfByte (byteAt buf pc)
  case LOAD_STRING =>
    rw [hop] at hex
    simp only [ExecResult.next.injEq, reduceCtorEq] at hex
    obtain ⟨h1, h2, h3⟩ := hex
    have hsl := (loadstring_take_strlen hop hov (by omega) hkl).1
    subst h1
    subst h2
    subst h3
    rw [byteAt_take buf k (pc + 1) (by simp only [load_op_size] at hnpc; omega),
      hsl]
  all_goals (
    rw [hop] at hex
    simp only [unary_op_size, binary_op_size, logical_op_size, load_op_size,
      cast_op_size, field_ref_size, literal_numeric_size, literal_double_size,
      ExecResult.next.injEq, reduceCtorEq] at hex
    <;> obtain ⟨h1, h2, h3⟩ := hex
    <;> subst h1 <;> subst h2 <;> subst h3
    <;> (try rw [byteAt_take buf k (pc + 1) (by omega)])
    <;> (try rw [u16At_take (show pc + 1 + 1 < k by omega)])
    <;> rfl)

theorem overflow_take_pass {buf : List Nat} {k pc npc : Nat} {reg : Regs}
    {mps : List MergeNode} {reg2 : Regs} {mps2 : List MergeNode}
    (hov : bytecode_validate_overflow buf pc = 0)
    (hex : exec_insn buf reg mps pc = ExecResult.next reg2 mps2 npc)
    (hnpc : npc ≤ k) (hkl : k ≤ buf.length) :
    bytecode_validate_overflow (List.take k buf) pc = 0 := by
  have hpck : pc < k := lt_of_lt_of_le (exec_next_progress hex) hnpc
  have hb0 := byteAt_take buf k pc hpck
  unfold bytecode_validate_overflow
  rw [hb0, take_length_eq hkl]
  unfold exec_insn at hex
  cases hop : opcodeOfByte (byteAt buf pc)
  case LOAD_STRING =>
    rw [hop] at hex
    simp only [ExecResult.next.injEq, reduceCtorEq] at hex
    obtain ⟨h1, h2, h3⟩ := hex
    have hsl := (loadstring_take_strlen hop hov (by omega) hkl).2
    rw [if_neg (show ¬pc + load_op_size > k by omega)]
    simp only []
    rw [hsl]
    rw [if_neg (show ¬strlen_from buf (pc + load_op_size)
      ≥ k - pc - load_op_size by omega)]
  all_goals (
    rw [hop] at hex
    simp only [ExecResult.next.injEq, reduceCtorEq] at hex
    <;> obtain ⟨h1, h2, h3⟩ := hex
    <;> simp only []
    <;> rw [if_neg (by omega)])

theorem overflow_take_fail {buf : List Nat} {k pc npc : Nat} {reg : Regs}
    {mps : List MergeNode} {reg2 : Regs} {mps2 : List MergeNode}
    (hov : bytecode_validate_overflow buf pc = 0)
    (hex : exec_insn buf reg mps pc = ExecResult.next reg2 mps2 npc)
    (hpck : pc < k) (hkn : k < npc) (hkl : k ≤ buf.length) :
    bytecode_validate_overflow (List.take k buf) pc = -EINVAL := by
  have hb0 := byteAt_take buf k pc hpck
  unfold bytecode_validate_overflow
  rw [hb0, take_length_eq hkl]
  unfold exec_insn at hex
  cases hop : opcodeOfByte (byteAt buf pc)
  case LOAD_STRING =>
    rw [hop] at hex
    simp only [ExecResult.next.injEq, reduceCtorEq] at hex
    obtain ⟨h1, h2, h3⟩ := hex
    by_cases h2k : pc + load_op_size > k
    · rw [if_pos h2k]
    · rw [if_neg h2k]
      simp only []
      have hall : strnlen_from (List.take k buf) (pc + load_op_size)
          (k - pc - load_op_size) = k - pc - load_op_size := by
        refine strnlen_all_pos (fun j hj => ?_)
        rw [byteAt_take buf k _ (by omega)]
        exact strlen_pos_below (by omega)
      rw [hall, if_pos (le_refl _)]
  all_goals (
    rw [hop] at hex
    all_goals (
      simp only [ExecResult.next.injEq, reduceCtorEq] at hex
      <;> obtain ⟨h1, h2, h3⟩ := hex
      <;> simp only []
      <;> rw [if_pos (by omega)]))

theorem merge_take_agree {buf buf2 : List Nat} {pc : Nat}
    (hctx : ∀ reg3 : Regs, validate_instruction_context buf2 reg3 pc
      = validate_instruction_context buf reg3 pc) :
    ∀ mps : List MergeNode,
      validate_merge_points buf2 pc mps = validate_merge_points buf pc mps := by
  intro mps
  induction mps with
  | nil => rfl
  | cons node rest ih =>
    unfold validate_merge_points
    rw [hctx node.reg, ih]

theorem all_contexts_take_agree {buf buf2 : List Nat} {pc : Nat}
    (hctx : ∀ reg3 : Regs, validate_instruction_context buf2 reg3 pc
      = validate_instruction_context buf reg3 pc)
    (reg : Regs) (mps : List MergeNode) :
    validate_instruction_all_contexts buf2 mps reg pc
      = validate_instruction_all_contexts buf mps reg pc := by
  unfold validate_instruction_all_contexts
  rw [hctx reg, merge_take_agree hctx mps]

theorem step_take_agree {buf : List Nat} {k : Nat} {s s2 : VState}
    (hstep : validate_step buf s.reg s.mps s.ret s.pc = StepOut.cont s2)
    (hnpc : s2.pc ≤ k) (hkl : k ≤ buf.length) :
    validate_step (List.take k buf) s.reg s.mps s.ret s.pc
      = StepOut.cont s2 := by
  obtain ⟨hpc, hov, hac, hex, hret⟩ := step_cont_elim hstep
  have hctx := ctx_take_agree hex hnpc
  have hovt := overflow_take_pass hov hex hnpc hkl
  have hexeq := exec_take_agree hex hov hnpc hkl
  have hact := all_contexts_take_agree hctx s.reg s.mps
  have hpck : s.pc < k := lt_of_lt_of_le (exec_next_progress hex) hnpc
  unfold validate_step
  rw [take_length_eq hkl, if_pos hpck, if_neg (by rw [hovt]; simp),
    hact]
  simp only [hac]
  rw [if_neg (by omega)]
  rw [hexeq]
  cases s2 with
  | mk reg2 mps2 ret2 pc2 =>
    simp only [] at hret ⊢
    rw [hret]

theorem runState_take {buf : List Nat} {k n : Nat} {s : VState}
    (hrun : runState buf n = some s) (hpk : s.pc ≤ k)
    (hkl : k ≤ buf.length) :
    runState (List.take k buf) n = some s := by
  induction n generalizing s with
  | zero =>
    unfold runState at hrun ⊢
    exact hrun
  | succ n ih =>
    unfold runState at hrun ⊢
    cases hr : runState buf n with
    | none => rw [hr] at hrun; cases hrun
    | some s0 =>
      rw [hr] at hrun
      simp only [] at hrun
      cases hs : validate_step buf s0.reg s0.mps s0.ret s0.pc with
      | halt out => rw [hs] at hrun; cases hrun
      | cont s2 =>
        rw [hs] at hrun
        injection hrun with hrun
        rw [← hrun] at hpk ⊢
        have hprev : s0.pc ≤ k :=
          le_trans (le_of_lt (step_cont_progress hs)) hpk
        rw [ih hr hprev]
        simp only []
        rw [step_take_agree hs hpk hkl]

theorem step_oob {buf : List Nat} {reg : Regs} {mps : List MergeNode}
    {ret : Int} {pc : Nat} (h : ¬pc < buf.length) :
    validate_step buf reg mps ret pc = StepOut.halt (ret, mps) := by
  unfold validate_step
  rw [if_neg h]

theorem validate_of_halt {buf : List Nat} {n : Nat} {s : VState}
    {out : Int × List MergeNode}
    (hrun : runState buf n = some s)
    (hhalt : validate_step buf s.reg s.mps s.ret s.pc = StepOut.halt out)
    (hnz : out.1 ≠ 0) :
    lttng_filter_validate_bytecode buf = out.1 := by
  unfold lttng_filter_validate_bytecode
  rw [runState_decomp hrun, loop_halt hhalt]
  simp only []
  by_cases hl : out.2.length ≠ 0
  · rw [if_pos hl, if_neg hnz]
  · rw [if_neg hl]

theorem step_stop_halt {buf : List Nat} {reg : Regs} {mps : List MergeNode}
    {ret : Int} {pc : Nat}
    (hpc : pc < buf.length)
    (hov : bytecode_validate_overflow buf pc = 0)
    (hac : (validate_instruction_all_contexts buf mps reg pc).1 = 0)
    (hex : exec_insn buf reg
      (validate_instruction_all_contexts buf mps reg pc).2 pc
        = ExecResult.stop) :
    validate_step buf reg mps ret pc
      = StepOut.halt (0, (validate_instruction_all_contexts buf mps reg pc).2)
      := by
  unfold validate_step
  rw [if_pos hpc, if_neg (by rw [hov]; simp)]
  simp only []
  rw [if_neg (by omega), hex]

theorem truncation_boundary {buf : List Nat} {k n : Nat} {s : VState}
    (hrun : runState buf n = some s) (hpk : s.pc = k)
    (hkl : k ≤ buf.length) :
    lttng_filter_validate_bytecode (List.take k buf) = s.ret := by
  have htr := runState_take hrun (le_of_eq hpk) hkl
  have hhalt : validate_step (List.take k buf) s.reg s.mps s.ret s.pc
      = StepOut.halt (s.ret, s.mps) :=
    step_oob (by rw [take_length_eq hkl]; omega)
  have hnz : (s.ret, s.mps).1 ≠ 0 := by
    simp only []
    rcases runState_ret hrun with h | h <;> rw [h] <;> decide
  exact validate_of_halt htr hhalt hnz

theorem truncation_rejected_aux (buf : List Nat) (k : Nat)
    (hacc : lttng_filter_validate_bytecode buf = 0)
    (m : Nat) (sret : VState) (hm : runState buf m = some sret)
    (hret : opcodeOfByte (byteAt buf sret.pc) = FilterOp.RETURN)
    (hk : k ≤ sret.pc) :
    ∀ (d n : Nat) (s : VState), runState buf n = some s → s.pc ≤ k →
      k - s.pc ≤ d →
      lttng_filter_validate_bytecode (List.take k buf) = -EINVAL
      ∨ lttng_filter_validate_bytecode (List.take k buf) = 1 := by
  have hkl : k ≤ buf.length :=
    le_trans hk (le_of_lt (accepted_reached_checks hacc hm).1)
  have hbound : ∀ (n : Nat) (s : VState), runState buf n = some s →
      s.pc = k →
      lttng_filter_validate_bytecode (List.take k buf) = -EINVAL
      ∨ lttng_filter_validate_bytecode (List.take k buf) = 1 := by
    intro n s hrun hpk2
    have hb := truncation_boundary hrun hpk2 hkl
    rcases runState_ret hrun with h | h
    · left
      rw [hb, h]
    · right
      rw [hb, h]
  have hmid : ∀ (n : Nat) (s : VState) (s2 : VState),
      runState buf n = some s → s.pc < k →
      validate_step buf s.reg s.mps s.ret s.pc = StepOut.cont s2 →
      k < s2.pc →
      lttng_filter_validate_bytecode (List.take k buf) = -EINVAL := by
    intro n s s2 hrun hplt hs h2
    obtain ⟨hpc, hov, hac, hex, hret2⟩ := step_cont_elim hs
    have htr := runState_take hrun (le_of_lt hplt) hkl
    have hovf := overflow_take_fail hov hex hplt h2 hkl
    have hhalt : validate_step (List.take k buf) s.reg s.mps s.ret s.pc
        = StepOut.halt (-EINVAL, s.mps) := by
      unfold validate_step
      rw [take_length_eq hkl, if_pos hplt, if_pos (by rw [hovf]; decide)]
    exact validate_of_halt htr hhalt (by simp only []; decide)
  have hstopc : ∀ (n : Nat) (s : VState), runState buf n = some s →
      s.pc < k →
      ¬exec_insn buf s.reg
        (validate_instruction_all_contexts buf s.mps s.reg s.pc).2 s.pc
          = ExecResult.stop := by
    intro n s hrun hplt hstop
    have hchecks := accepted_reached_checks hacc hrun
    have hhalt := @step_stop_halt buf s.reg s.mps s.ret s.pc hchecks.1
      hchecks.2.1 hchecks.2.2 hstop
    have hnone : runState buf (n + 1) = none := by
      unfold runState
      rw [hrun]
      simp only []
      rw [hhalt]
    have hmn : m ≤ n := by
      rcases Nat.lt_or_ge n m with h1 | h1
      · exfalso
        have h2 := runState_none_mono hnone h1
        rw [h2] at hm
        cases hm
      · exact h1
    have := runState_pc_mono hm hrun hmn
    omega
  intro d
  induction d with
  | zero =>
    intro n s hrun hpk hd
    exact hbound n s hrun (by omega)
  | succ d ih =>
    intro n s hrun hpk hd
    by_cases hpk2 : s.pc = k
    · exact hbound n s hrun hpk2
    · have hplt : s.pc < k := lt_of_le_of_ne hpk hpk2
      rcases accepted_step_shape hacc hrun with ⟨s2, hs⟩ | hstop
      · by_cases h2 : s2.pc ≤ k
        · refine ih (n + 1) s2 ?_ h2 ?_
          · unfold runState
            rw [hrun]
            simp only []
            rw [hs]
          · have := step_cont_progress hs
            omega
        · exact Or.inl (hmid n s s2 hrun hplt hs (by omega))
      · exact absurd hstop (hstopc n s hrun hplt)

/-- Claim C4 (amended): truncating an accepted buffer at any point k at or
before the offset of its RETURN terminator never yields success: the result
is -EINVAL (the single error value behind E_BOUNDS and E_UNKNOWN_OPCODE)
when the cut falls strictly inside an instruction, or the sentinel 1 (the
driver's loop fell off the end without reaching a RETURN) when the cut falls
exactly on an instruction boundary; in both cases the result is nonzero. -/
theorem c4_truncation (buf : List Nat) (k m : Nat) (sret : VState)
    (hacc : lttng_filter_validate_bytecode buf = 0)
    (hm : runState buf m = some sret)
    (hret : opcodeOfByte (byteAt buf sret.pc) = FilterOp.RETURN)
    (hk : k ≤ sret.pc) :
    lttng_filter_validate_bytecode (List.take k buf) = -EINVAL
    ∨ lttng_filter_validate_bytecode (List.take k buf) = 1 :=
  truncation_rejected_aux buf k hacc m sret hm hret hk k 0
    ⟨initRegs, [], -EINVAL, 0⟩ rfl (Nat.zero_le k) (by omega)

/-- Claim C4 counterexample: progOK validates, its RETURN terminator is at
offset 21, and truncating it at offset 10 — an instruction boundary before
the RETURN — makes the validator return 1: not success, but also neither
E_BOUNDS nor E_UNKNOWN_OPCODE (both of which are -EINVAL in the code), so
the claim that every such truncation produces one of those two errors is
false. -/
theorem c4_truncation_counterexample :
    lttng_filter_validate_bytecode progOK = 0
    ∧ opcodeOfByte (byteAt progOK 21) = FilterOp.RETURN
    ∧ lttng_filter_validate_bytecode (List.take 10 progOK) = 1
    ∧ (1 : Int) ≠ -EINVAL ∧ (1 : Int) ≠ 0 := by
  refine ⟨progOK_accept, by decide, ?_, by decide, by decide⟩
  have e0 : validate_step (List.take 10 progOK) initRegs [] (-EINVAL) 0
      = StepOut.cont ⟨regsS64R0, [], 1, 10⟩ := by decide
  have e1 : validate_step (List.take 10 progOK) regsS64R0 [] 1 10
      = StepOut.halt (1, []) := by decide
  unfold lttng_filter_validate_bytecode
  rw [loop_cont2 e0, loop_halt e1]
  rfl

theorem c4_truncation_witness :
    lttng_filter_validate_bytecode (List.take 10 progOK) = -EINVAL
    ∨ lttng_filter_validate_bytecode (List.take 10 progOK) = 1 :=
  c4_truncation progOK 10 3 ⟨regsLitS64, [], 1, 21⟩ progOK_accept (by decide)
    (by decide) (by decide)
